import Mathlib

/-!
Verification of the Rasa 2.0-to-3.0 domain-format migration module
(`rasa/core/migrate.py`), shallowly embedded in Lean 4.

Python dicts are modelled as association lists with the keys intended to be
unique; Python dict equality (order-insensitive key/value comparison) is
modelled by `dictEq`.  Mapping rules are modelled as a record of their
non-`conditions` fields plus an optional `conditions` entry, mirroring the
fact that the migrator compares rules with the `conditions` key popped.
The filesystem used by the migration orchestrator is modelled further below.
-/

set_option autoImplicit false

/-- Modelled from the spec: the active-form condition key
(`rasa.shared.core.constants.ACTIVE_LOOP`, not part of this repository). -/
def ACTIVE_LOOP : String := "active_loop"

/-- Modelled from the spec: the requested-slot condition key
(`rasa.shared.core.constants.REQUESTED_SLOT`, not part of this repository). -/
def REQUESTED_SLOT : String := "requested_slot"

/-- Modelled from the spec: `rasa.shared.constants.REQUIRED_SLOTS_KEY`. -/
def REQUIRED_SLOTS_KEY : String := "required_slots"

/-- Modelled from the spec: `rasa.shared.constants.IGNORED_INTENTS`. -/
def IGNORED_INTENTS : String := "ignored_intents"

/-- Modelled from the spec: `rasa.shared.core.domain.KEY_SLOTS`. -/
def KEY_SLOTS : String := "slots"

/-- Modelled from the spec: `rasa.shared.core.domain.KEY_FORMS`. -/
def KEY_FORMS : String := "forms"

/-- Modelled from the spec: `rasa.shared.core.domain.KEY_ENTITIES`. -/
def KEY_ENTITIES : String := "entities"

/-- Modelled from the spec: `str(SlotMapping.FROM_ENTITY)`
(from `rasa.shared.core.slot_mappings`, not part of this repository). -/
def FROM_ENTITY : String := "from_entity"

/-- Modelled from the spec: `str(SlotMapping.FROM_TRIGGER_INTENT)`
(from `rasa.shared.core.slot_mappings`, not part of this repository). -/
def FROM_TRIGGER_INTENT : String := "from_trigger_intent"

/-- The literal (quoted) version marker written into migrated documents,
`'"3.0"'` in the source. -/
def TARGET_VERSION : String := "\"3.0\""

/-- A Python string-to-string dict, as an association list. -/
abbrev Dict := List (String × String)

/-- Association-list lookup (first entry wins, like a Python dict with
unique keys). -/
def dictLookup {α : Type} (d : List (String × α)) (k : String) : Option α :=
  (d.find? (fun kv => kv.1 == k)).map Prod.snd

/-- Python `d[k] = v`: replace the value in place if the key is present
(keeping its position), otherwise append the new entry at the end. -/
def dictSet {α : Type} (d : List (String × α)) (k : String) (v : α) :
    List (String × α) :=
  if (dictLookup d k).isSome then
    d.map (fun kv => if kv.1 == k then (k, v) else kv)
  else
    d ++ [(k, v)]

/-- Python `base.update(upd)`. -/
def dictUpdate {α : Type} (base upd : List (String × α)) : List (String × α) :=
  upd.foldl (fun acc kv => dictSet acc kv.1 kv.2) base

/-- One direction of Python dict equality: every entry of `a` is found in
`b` with the same value. -/
def dictLe (a b : Dict) : Bool :=
  a.all (fun kv => dictLookup b kv.1 == some kv.2)

/-- Python `==` on two string dicts: the same key/value pairs, ignoring
order (keys are unique in dicts produced by parsing). -/
def dictEq (a b : Dict) : Bool :=
  dictLe a b && dictLe b a

/-- Python `==` on two lists of condition dicts. -/
def condListEq (a b : List Dict) : Bool :=
  a.length == b.length && (List.zip a b).all (fun p => dictEq p.1 p.2)

/-- A mapping rule: all fields except `conditions`, plus the optional
`conditions` key (a list of condition dicts).  `conditions = none` models a
rule dict without a `conditions` key. -/
structure Rule where
  fields : Dict
  conditions : Option (List Dict)
deriving Repr, DecidableEq

/-- Python `==` on two mapping-rule dicts. -/
def ruleEq (a b : Rule) : Bool :=
  dictEq a.fields b.fields &&
    match a.conditions, b.conditions with
    | none, none => true
    | some ca, some cb => condListEq ca cb
    | _, _ => false

/-- Python `r in rules` (membership by dict equality). -/
def rulesContain (rules : List Rule) (r : Rule) : Bool :=
  rules.any (fun m => ruleEq m r)

/-- Python `rules.remove(r)`: drop the first element equal to `r`. -/
def removeFirstRule : List Rule → Rule → List Rule
  | [], _ => []
  | m :: ms, r => if ruleEq m r then ms else m :: removeFirstRule ms r

/-- Embeds `_get_updated_mapping_condition` (migrate.py lines 35-43): rules
of type `from_entity` / `from_trigger_intent` keep the bare condition, all
other rules get a `requested_slot` entry merged in
(`{**condition, REQUESTED_SLOT: slot_name}`). -/
def get_updated_mapping_condition (condition : Dict) (mapping : Rule)
    (slotName : String) : Dict :=
  if dictLookup mapping.fields "type" == some FROM_ENTITY
      || dictLookup mapping.fields "type" == some FROM_TRIGGER_INTENT then
    condition
  else
    dictUpdate condition [(REQUESTED_SLOT, slotName)]

/-- The first loop of `_get_updated_or_new_mappings` (lines 54-66): walk the
existing rules; a rule that (with its `conditions` key popped) equals one of
the form's new rules is "shared" - it absorbs the qualified condition and the
matching new rule is removed - otherwise it is carried through unchanged.
Returns the processed existing rules and the remaining new rules. -/
def processExisting (condition : Dict) (slotName : String) :
    List Rule → List Rule → List Rule × List Rule
  | [], newMappings => ([], newMappings)
  | e :: es, newMappings =>
    let stripped : Rule := ⟨e.fields, none⟩
    if rulesContain newMappings stripped then
      let conds := e.conditions.getD []
      let updated : Rule :=
        ⟨e.fields,
          some (conds ++ [get_updated_mapping_condition condition stripped slotName])⟩
      let rest := processExisting condition slotName es
        (removeFirstRule newMappings stripped)
      (updated :: rest.1, rest.2)
    else
      let rest := processExisting condition slotName es newMappings
      (e :: rest.1, rest.2)

/-- The second loop of `_get_updated_or_new_mappings` (lines 68-76): every
remaining new rule is appended with a single-element condition list. -/
def attachNewCondition (condition : Dict) (slotName : String) (m : Rule) :
    Rule :=
  { m with conditions := some [get_updated_mapping_condition condition m slotName] }

/-- Embeds `_get_updated_or_new_mappings` (lines 46-78). -/
def get_updated_or_new_mappings (existingMappings newMappings : List Rule)
    (condition : Dict) (slotName : String) : List Rule :=
  let processed := processExisting condition slotName existingMappings newMappings
  processed.1 ++ processed.2.map (attachNewCondition condition slotName)

/-- A legacy slot definition: the optional `auto_fill` key, the optional
`mappings` key, and all other (opaquely preserved) properties. -/
structure SlotProps where
  autoFill : Option Bool
  mappings : Option (List Rule)
  others : Dict
deriving Repr, DecidableEq

/-- Python `{}` used as the default for an undeclared slot. -/
def defaultSlotProps : SlotProps := ⟨none, none, []⟩

/-- A legacy form definition: the optional `ignored_intents` key, the
optional nested `required_slots` key, and the direct slot declarations. -/
structure FormData where
  ignoredIntents : Option (List String)
  requiredSlots : Option (List (String × List Rule))
  decls : List (String × List Rule)
deriving Repr, DecidableEq

/-- Lines 91-92: if the form nests its declarations under `required_slots`,
unwrap one level, otherwise use the direct declarations. -/
def effective_decls (fd : FormData) : List (String × List Rule) :=
  match fd.requiredSlots with
  | some rs => rs
  | none => fd.decls

/-- A migrated form record `{ignored_intents: ..., required_slots: [...]}`. -/
structure MigratedForm where
  ignoredIntents : List String
  requiredSlots : List String
deriving Repr, DecidableEq

/-- A top-level value of a domain document. -/
inductive DocVal where
  /-- a legacy `slots` table -/
  | vslots : List (String × SlotProps) → DocVal
  /-- a legacy `forms` table -/
  | vforms : List (String × FormData) → DocVal
  /-- a migrated `forms` table (appears only in written output) -/
  | vmforms : List (String × MigratedForm) → DocVal
  /-- a migrated `slots` table (appears only in written output) -/
  | vmslots : List (String × SlotProps) → DocVal
  /-- a string value (used for `version`) -/
  | vstr : String → DocVal
  /-- a list of entity names -/
  | vents : List String → DocVal
  /-- any other, opaquely preserved, value -/
  | vother : String → DocVal
deriving Repr, DecidableEq

/-- A domain document: an ordered mapping of top-level keys to values. -/
abbrev Doc := List (String × DocVal)

/-- Python `key in document`. -/
def hasKey (d : Doc) (k : String) : Bool :=
  (dictLookup d k).isSome

/-- Python `document.get(KEY_SLOTS, {})` on a well-typed document. -/
def getSlotsTable (d : Doc) : List (String × SlotProps) :=
  match dictLookup d KEY_SLOTS with
  | some (DocVal.vslots t) => t
  | _ => []

/-- Python `document.get(KEY_FORMS, {})` on a well-typed document. -/
def getFormsTable (d : Doc) : List (String × FormData) :=
  match dictLookup d KEY_FORMS with
  | some (DocVal.vforms t) => t
  | _ => []

/-- Python `document.get(KEY_ENTITIES, {})` on a well-typed document. -/
def getEntities (d : Doc) : List String :=
  match dictLookup d KEY_ENTITIES with
  | some (DocVal.vents l) => l
  | _ => []

/-- The inner loop body of `_migrate_form_slots` (lines 96-106): merge one
`(slot_name, mappings)` declaration of form `formName` into the slot table. -/
def form_slot_step (formName : String) (slots : List (String × SlotProps))
    (decl : String × List Rule) : List (String × SlotProps) :=
  let condition : Dict := [(ACTIVE_LOOP, formName)]
  let props := (dictLookup slots decl.1).getD defaultSlotProps
  let existing := props.mappings.getD []
  let updated := get_updated_or_new_mappings existing decl.2 condition decl.1
  dictSet slots decl.1 { props with mappings := some updated }

/-- The outer loop body of `_migrate_form_slots` (lines 89-111): process one
form, threading the accumulated new form table and slot table. -/
def process_form
    (acc : List (String × MigratedForm) × List (String × SlotProps))
    (f : String × FormData) :
    List (String × MigratedForm) × List (String × SlotProps) :=
  let decls := effective_decls f.2
  let slots := decls.foldl (form_slot_step f.1) acc.2
  (acc.1 ++ [(f.1, ⟨f.2.ignoredIntents.getD [], decls.map Prod.fst⟩)], slots)

/-- Embeds `_migrate_form_slots` (lines 81-112). -/
def migrate_form_slots (domain : Doc) :
    List (String × MigratedForm) × List (String × SlotProps) :=
  (getFormsTable domain).foldl process_form ([], getSlotsTable domain)

/-- The implicit auto-fill rule `{type: from_entity, entity: slot_name}`
built at lines 119-122. -/
def fromEntityRule (slotName : String) : Rule :=
  ⟨[("type", FROM_ENTITY), ("entity", slotName)], none⟩

/-- Embeds `_migrate_auto_fill` (lines 115-131). -/
def migrate_auto_fill (slotName : String) (properties : SlotProps)
    (entities : List String) : SlotProps :=
  let properties :=
    if entities.contains slotName && properties.autoFill.getD true then
      let mappings := properties.mappings.getD []
      if !(rulesContain mappings (fromEntityRule slotName)) then
        { properties with mappings := some (mappings ++ [fromEntityRule slotName]) }
      else properties
    else properties
  { properties with autoFill := none }

/-- The placeholder rule `{"type": "custom"}` of line 138. -/
def customRule : Rule := ⟨[("type", "custom")], none⟩

/-- Embeds `_migrate_custom_slots` (lines 134-146); the returned list holds
the names surfaced through `raise_warning`. -/
def migrate_custom_slots (slotName : String) (properties : SlotProps) :
    SlotProps × List String :=
  if (properties.mappings.getD []).isEmpty then
    ({ properties with mappings := some [customRule] }, [slotName])
  else
    (properties, [])

/-- The loop body of `_migrate_auto_fill_and_custom_slots` (lines 155-159). -/
def auto_fill_step (entities : List String)
    (acc : List (String × SlotProps) × List String)
    (slot : String × SlotProps) : List (String × SlotProps) × List String :=
  let p1 := migrate_auto_fill slot.1 slot.2 entities
  let p2 := migrate_custom_slots slot.1 p1
  (acc.1 ++ [(slot.1, p2.1)], acc.2 ++ p2.2)

/-- Embeds `_migrate_auto_fill_and_custom_slots` (lines 149-160), returning
the new slot table together with the emitted warnings. -/
def migrate_auto_fill_and_custom_slots (domain : Doc)
    (slots : List (String × SlotProps)) :
    List (String × SlotProps) × List String :=
  slots.foldl (auto_fill_step (getEntities domain)) ([], [])

/-- The per-key substitution of `_assemble_new_domain` (lines 168-176). -/
def assemble_step (newForms : List (String × MigratedForm))
    (newSlots : List (String × SlotProps)) (nd : Doc) (kv : String × DocVal) :
    Doc :=
  if kv.1 == KEY_SLOTS then dictSet nd kv.1 (DocVal.vmslots newSlots)
  else if kv.1 == KEY_FORMS then dictSet nd kv.1 (DocVal.vmforms newForms)
  else if kv.1 == "version" then dictSet nd kv.1 (DocVal.vstr TARGET_VERSION)
  else dictSet nd kv.1 kv.2

/-- Embeds `_assemble_new_domain` (lines 163-177), taking the re-read
original content as input. -/
def assemble_new_domain (originalContent : Doc)
    (newForms : List (String × MigratedForm))
    (newSlots : List (String × SlotProps)) : Doc :=
  originalContent.foldl (assemble_step newForms newSlots) []

/-!
Filesystem model for the migration orchestrator.  Paths are lists of
segments; a filesystem is a list of files (path, content) plus a list of
directories.  Reading a file whose content did not parse raises a parse
error; writing to a directory path or under a missing parent raises an
OS-level error, as the corresponding Python calls do.
-/

/-- A filesystem path, as a list of segments (`Path` in the source). -/
abbrev FPath := List String

/-- The parse result of a file (`none` models unparseable content) together
with the verdict of the external `Domain.is_domain_file` predicate. -/
structure FileData where
  doc : Option Doc
  isDomain : Bool
deriving Repr, DecidableEq

/-- An abstract filesystem: files with contents, and directories. -/
structure FS where
  files : List (FPath × FileData)
  dirs : List FPath
deriving Repr, DecidableEq

/-- The errors the migration can surface.  `rasa k` is a `RasaException`;
`attributeError` models the `AttributeError`s the source can raise
(`backup_location.isdir()` on a `pathlib.Path`, attribute access on `None`);
`osError` / `parseError` model I/O and YAML failures. -/
inductive RasaKind where
  | outDirNotEmpty
  | outFileExists
  | alreadyMigrated
  | emptyDomainDir
  | duplicateSlots
  | duplicateForms
  | missingSlotsOrForms
  | notADomainFile
deriving Repr, DecidableEq

/-- Error kinds raised by the embedded migration. -/
inductive MigErr where
  | parseError : FPath → MigErr
  | osError : FPath → MigErr
  | attributeError : MigErr
  | rasa : RasaKind → MigErr
deriving Repr, DecidableEq

/-- Find a file's data. -/
def FS.lookupFile (fs : FS) (p : FPath) : Option FileData :=
  (fs.files.find? (fun pf => pf.1 == p)).map Prod.snd

/-- Python `path.is_file()`. -/
def FS.isFile (fs : FS) (p : FPath) : Bool :=
  (fs.lookupFile p).isSome

/-- Python `path.is_dir()`. -/
def FS.isDir (fs : FS) (p : FPath) : Bool :=
  fs.dirs.contains p

/-- Python `path.exists()`. -/
def FS.pathExists (fs : FS) (p : FPath) : Bool :=
  fs.isFile p || fs.isDir p

/-- Store file contents at a path: overwrite in place if present, else
append. -/
def FS.setFile (fs : FS) (p : FPath) (fd : FileData) : FS :=
  if fs.isFile p then
    { fs with files := fs.files.map (fun pf => if pf.1 == p then (p, fd) else pf) }
  else
    { fs with files := fs.files ++ [(p, fd)] }

/-- Python `path.unlink()` on an existing file. -/
def FS.removeFile (fs : FS) (p : FPath) : FS :=
  { fs with files := fs.files.filter (fun pf => pf.1 != p) }

/-- Python `shutil.rmtree(path)`: remove the directory and everything at or
below it. -/
def FS.rmtree (fs : FS) (p : FPath) : FS :=
  { files := fs.files.filter (fun pf => !(p.isPrefixOf pf.1)),
    dirs := fs.dirs.filter (fun d => !(p.isPrefixOf d)) }

/-- If `p` is directly inside directory `d`, its name (final segment). -/
def childName (d p : FPath) : Option String :=
  match p.getLast? with
  | some n => if p.dropLast == d then some n else none
  | none => none

/-- Python `any(path.iterdir())`: the directory has entries (files or
subdirectories). -/
def FS.hasChildren (fs : FS) (d : FPath) : Bool :=
  fs.files.any (fun pf => (childName d pf.1).isSome)
    || fs.dirs.any (fun q => (childName d q).isSome)

/-- The names of the recognized domain files directly inside `d`, in
filesystem order: `[file for file in path.iterdir() if
Domain.is_domain_file(file)]` (subdirectories are never domain files). -/
def FS.domainFileNames (fs : FS) (d : FPath) : List String :=
  fs.files.filterMap (fun pf =>
    match childName d pf.1 with
    | some n => if pf.2.isDomain then some n else none
    | none => none)

/-- Python `Domain.is_domain_file(path)` for a direct path. -/
def FS.isDomainFile (fs : FS) (p : FPath) : Bool :=
  match fs.lookupFile p with
  | some fd => fd.isDomain
  | none => false

/-- All nonempty prefixes of a path, shortest first (used by
`mkdir(parents=True)`). -/
def pathPrefixes (p : FPath) : List FPath :=
  (List.range p.length).map (fun i => p.take (i + 1))

/-- Python `path.mkdir()`: fails if the path exists or the parent is not a
directory. -/
def FS.mkdirPlain (fs : FS) (p : FPath) : Except MigErr FS :=
  if fs.pathExists p then Except.error (MigErr.osError p)
  else if !(fs.isDir p.dropLast) then Except.error (MigErr.osError p)
  else Except.ok { fs with dirs := fs.dirs ++ [p] }

/-- Python `path.mkdir(parents=True)`: fails if the path already exists or
some prefix of it is a file; otherwise creates all missing prefixes. -/
def FS.mkdirParents (fs : FS) (p : FPath) : Except MigErr FS :=
  if fs.pathExists p then Except.error (MigErr.osError p)
  else if (pathPrefixes p).any (fun q => fs.isFile q) then
    Except.error (MigErr.osError p)
  else
    Except.ok
      { fs with dirs := fs.dirs ++ (pathPrefixes p).filter (fun q => !(fs.isDir q)) }

/-- Python `rasa.shared.utils.io.read_yaml_file(path)`. -/
def readYamlFile (fs : FS) (p : FPath) : Except MigErr Doc :=
  match fs.lookupFile p with
  | none => Except.error (MigErr.osError p)
  | some fd =>
    match fd.doc with
    | none => Except.error (MigErr.parseError p)
    | some d => Except.ok d

/-- Python `rasa.shared.utils.io.write_yaml(content, path, ...)`: fails on a
directory path or a missing parent directory, otherwise stores the document
(written files are recognizable domain files). -/
def writeYaml (fs : FS) (p : FPath) (d : Doc) : Except MigErr FS :=
  if fs.isDir p then Except.error (MigErr.osError p)
  else if !(fs.isDir p.dropLast) then Except.error (MigErr.osError p)
  else Except.ok (fs.setFile p ⟨some d, true⟩)

/-- Embeds `_create_back_up` (lines 24-32): read the domain file and write
its parsed content to the backup location.  A raised error carries the
filesystem state at the raise. -/
def create_back_up (fs : FS) (domainFile backupLocation : FPath) :
    Except (MigErr × FS) (Doc × FS) :=
  match readYamlFile fs domainFile with
  | Except.error e => Except.error (e, fs)
  | Except.ok originalContent =>
    match writeYaml fs backupLocation originalContent with
    | Except.error e => Except.error (e, fs)
    | Except.ok fs1 => Except.ok (originalContent, fs1)

/-- The per-file loop of `_migrate_domain_files` (lines 221-252), threading
the filesystem and the accumulated `slots` / `forms` / `entities`. -/
def mdfLoop (domainPath backupLocation outPath : FPath) :
    FS → List String → List (String × SlotProps) → List (String × FormData) →
    List String → Except (MigErr × FS) (Doc × FS)
  | fs, [], slots, forms, entities =>
    if slots.isEmpty || forms.isEmpty then
      Except.error (MigErr.rasa RasaKind.missingSlotsOrForms, fs)
    else
      Except.ok
        ([(KEY_SLOTS, DocVal.vslots slots), (KEY_FORMS, DocVal.vforms forms),
          (KEY_ENTITIES, DocVal.vents entities)], fs)
  | fs, n :: rest, slots, forms, entities =>
    match create_back_up fs (domainPath ++ [n]) (backupLocation ++ [n]) with
    | Except.error efs => Except.error efs
    | Except.ok (originalContent, fs1) =>
      if !(hasKey originalContent KEY_SLOTS) && !(hasKey originalContent KEY_FORMS) then
        let content1 := dictSet originalContent "version" (DocVal.vstr TARGET_VERSION)
        match writeYaml fs1 (outPath ++ [n]) content1 with
        | Except.error e => Except.error (e, fs1)
        | Except.ok fs2 =>
          mdfLoop domainPath backupLocation outPath fs2 rest
            (dictUpdate slots (getSlotsTable content1))
            (dictUpdate forms (getFormsTable content1))
            (entities ++ getEntities content1)
      else if hasKey originalContent KEY_SLOTS && !slots.isEmpty then
        Except.error (MigErr.rasa RasaKind.duplicateSlots, fs1)
      else if hasKey originalContent KEY_FORMS && !forms.isEmpty then
        Except.error (MigErr.rasa RasaKind.duplicateForms, fs1)
      else
        mdfLoop domainPath backupLocation outPath fs1 rest
          (dictUpdate slots (getSlotsTable originalContent))
          (dictUpdate forms (getFormsTable originalContent))
          (entities ++ getEntities originalContent)

/-- Embeds `_migrate_domain_files` (lines 194-261). -/
def migrate_domain_files (fs : FS) (domainPath backupLocation outPath : FPath) :
    Except (MigErr × FS) (Doc × FS) :=
  let names := fs.domainFileNames domainPath
  if names.isEmpty then Except.error (MigErr.rasa RasaKind.emptyDomainDir, fs)
  else mdfLoop domainPath backupLocation outPath fs names [] [] []

/-- The per-file loop of the directory branch of `_write_final_domain`
(lines 184-188). -/
def wfdLoop (domainPath outPath : FPath) (newForms : List (String × MigratedForm))
    (newSlots : List (String × SlotProps)) :
    FS → List String → Except (MigErr × FS) FS
  | fs, [] => Except.ok fs
  | fs, n :: rest =>
    match readYamlFile fs (domainPath ++ [n]) with
    | Except.error e => Except.error (e, fs)
    | Except.ok content =>
      match writeYaml fs (outPath ++ [n]) (assemble_new_domain content newForms newSlots) with
      | Except.error e => Except.error (e, fs)
      | Except.ok fs1 => wfdLoop domainPath outPath newForms newSlots fs1 rest

/-- Embeds `_write_final_domain` (lines 180-191). -/
def write_final_domain (fs : FS) (domainPath : FPath)
    (newForms : List (String × MigratedForm)) (newSlots : List (String × SlotProps))
    (outPath : FPath) : Except (MigErr × FS) FS :=
  if fs.isDir domainPath then
    wfdLoop domainPath outPath newForms newSlots fs (fs.domainFileNames domainPath)
  else
    match readYamlFile fs domainPath with
    | Except.error e => Except.error (e, fs)
    | Except.ok content =>
      match writeYaml fs outPath (assemble_new_domain content newForms newSlots) with
      | Except.error e => Except.error (e, fs)
      | Except.ok fs1 => Except.ok fs1

/-- Lines 352-355: the in-memory transformation followed by the final
writes. -/
def transformAndWrite (fs : FS) (domainPath : FPath) (originalDomain : Doc)
    (outPath : FPath) : Except (MigErr × FS) FS :=
  let formsSlots := migrate_form_slots originalDomain
  let newSlots := (migrate_auto_fill_and_custom_slots originalDomain formsSlots.2).1
  write_final_domain fs domainPath formsSlots.1 newSlots outPath

/-- Lines 309-321: read every candidate file and report whether any of them
already carries version `"3.0"` (the check `read_yaml_file(file).get("version")
== "3.0"`). -/
def anyAlreadyMigrated (fs : FS) : List FPath → Except MigErr Bool
  | [] => Except.ok false
  | p :: rest =>
    match readYamlFile fs p with
    | Except.error e => Except.error e
    | Except.ok d =>
      match anyAlreadyMigrated fs rest with
      | Except.error e => Except.error e
      | Except.ok b => Except.ok ((dictLookup d "version" == some (DocVal.vstr "3.0")) || b)

/-- The `try` block of `migrate_domain_format` (lines 330-355).  Returns the
result (the successful filesystem, or the raised error together with the
filesystem at the raise) and the `created_out_dir` flag as the `except`
block observes it. -/
def tryPhase (fs : FS) (domainPath backupLocation outPath : FPath)
    (migrateFileOnly : Bool) : Except (MigErr × FS) FS × Bool :=
  if migrateFileOnly then
    (if !(fs.isDomainFile domainPath) then
      Except.error (MigErr.rasa RasaKind.notADomainFile, fs)
    else
      match create_back_up fs domainPath backupLocation with
      | Except.error efs => Except.error efs
      | Except.ok (originalDomain, fs1) =>
        transformAndWrite fs1 domainPath originalDomain outPath, false)
  else
    match (if !(fs.isDir outPath) then
            match fs.mkdirParents outPath with
            | Except.error e => Except.error (e, fs)
            | Except.ok fs1 => Except.ok (fs1, true)
           else Except.ok (fs, false) : Except (MigErr × FS) (FS × Bool)) with
    | Except.error efs => (Except.error efs, false)
    | Except.ok (fs1, created) =>
      (match fs1.mkdirPlain backupLocation with
       | Except.error e => Except.error (e, fs1)
       | Except.ok fs2 =>
         match migrate_domain_files fs2 domainPath backupLocation outPath with
         | Except.error efs => Except.error efs
         | Except.ok (originalDomain, fs3) =>
           transformAndWrite fs3 domainPath originalDomain outPath, created)

deriving instance DecidableEq for Except

/-- The final result of a migration run: the filesystem afterwards and the
outcome surfaced to the caller. -/
structure MigResult where
  fs : FS
  outcome : Except MigErr Unit
deriving Repr, DecidableEq

/-- Rollback cleanup, Python `for f in out_path.glob("*"): f.unlink()`:
unlink every direct child.  A child subdirectory makes `unlink` raise; the
child files are modelled as removed first (iteration order abstraction). -/
def FS.cleanOutDir (fs : FS) (p : FPath) : Except (MigErr × FS) FS :=
  let fs1 := { fs with files := fs.files.filter (fun pf => (childName p pf.1).isNone) }
  if fs.dirs.any (fun q => (childName p q).isSome) then
    Except.error (MigErr.osError p, fs1)
  else
    Except.ok fs1

/-- The `except` block of `migrate_domain_format` (lines 363-375): delete
the backup (directory or file), clean the output location, and re-raise.  If
the cleanup itself raises, that error escapes instead (the source has no
guard around it). -/
def rollback (fsAtRaise : FS) (backupLocation outPath : FPath)
    (createdOutDir : Bool) (e : MigErr) : MigResult :=
  let fs1 := if fsAtRaise.isDir backupLocation then fsAtRaise.rmtree backupLocation
             else fsAtRaise
  match (if fs1.isDir outPath then
          (if createdOutDir then Except.ok (fs1.rmtree outPath)
           else fs1.cleanOutDir outPath)
         else Except.ok fs1 : Except (MigErr × FS) FS) with
  | Except.error efs2 => ⟨efs2.2, Except.error efs2.1⟩
  | Except.ok fs2 =>
    let fs3 := if fs2.isFile backupLocation then fs2.removeFile backupLocation else fs2
    ⟨fs3, Except.error e⟩

/-- Embeds `migrate_domain_format` (lines 264-375).  `out_path = None` and a
pre-existing backup location both hit `AttributeError`s in the source
(attribute access on `None`, resp. the nonexistent `Path.isdir`); the
comparison `out_path == DEFAULT_DOMAIN_PATH` at line 289 compares a `Path`
with a `str` and is always `False`, so no default-output substitution ever
happens and the given output path is used as is. -/
def migrate_domain_format (fs0 : FS) (domainPath : FPath)
    (outPathArg : Option FPath) : MigResult :=
  let domainParentDir := domainPath.dropLast
  let migrateFileOnly := fs0.isFile domainPath
  let suffix := if migrateFileOnly then "original_domain.yml" else "original_domain"
  let backupLocation := domainParentDir ++ [suffix]
  if fs0.pathExists backupLocation then
    ⟨fs0, Except.error MigErr.attributeError⟩
  else
    match outPathArg with
    | none => ⟨fs0, Except.error MigErr.attributeError⟩
    | some outPath =>
      if !migrateFileOnly && (fs0.isDir outPath && fs0.hasChildren outPath) then
        ⟨fs0, Except.error (MigErr.rasa RasaKind.outDirNotEmpty)⟩
      else if migrateFileOnly && fs0.isFile outPath then
        ⟨fs0, Except.error (MigErr.rasa RasaKind.outFileExists)⟩
      else
        let originalFiles :=
          if fs0.isDir domainPath then
            (fs0.domainFileNames domainPath).map (fun n => domainPath ++ [n])
          else [domainPath]
        match anyAlreadyMigrated fs0 originalFiles with
        | Except.error e => ⟨fs0, Except.error e⟩
        | Except.ok migrated =>
          if migrated then ⟨fs0, Except.error (MigErr.rasa RasaKind.alreadyMigrated)⟩
          else
            match tryPhase fs0 domainPath backupLocation outPath migrateFileOnly with
            | (Except.ok fsFinal, _) => ⟨fsFinal, Except.ok ()⟩
            | (Except.error (e, fsAtRaise), created) =>
              rollback fsAtRaise backupLocation outPath created e

/-- The filesystem carried by a result of the orchestrator's inner steps,
whether the step succeeded or raised. -/
def exceptFS {α : Type} : Except (MigErr × FS) (α × FS) → FS
  | Except.error (_, fs) => fs
  | Except.ok (_, fs) => fs

/-- Same, for steps returning only a filesystem. -/
def exceptFSOnly : Except (MigErr × FS) FS → FS
  | Except.error (_, fs) => fs
  | Except.ok fs => fs

/-- The filesystems reachable inside the `try` block only extend the entry
filesystem with files placed directly inside the backup location or the
output directory (the directories are untouched, and no file sits at the
backup or output path itself). -/
def ExtraOnly (backupLocation outPath : FPath) (fs fs' : FS) : Prop :=
  fs'.dirs = fs.dirs ∧
    ∃ extra, fs'.files = fs.files ++ extra ∧
      ∀ pf ∈ extra,
        (pf.1.dropLast = backupLocation ∨ pf.1.dropLast = outPath)
          ∧ pf.1 ≠ backupLocation ∧ pf.1 ≠ outPath

/-- Well-formedness of the initial filesystem and of the chosen paths under
which the migration's rollback is exact: unique file paths, files and
directories disjoint, nothing already stored at or below the backup
location, nothing stored at or below the output path (and no directory
strictly below it), the output path's parents in place, the backup
location's parent in place, and the output path distinct from the input and
backup locations (in particular, for a single-file input the output path is
not an existing directory, and neither of output/backup lies below the
other). -/
def GoodSetup (fs0 : FS) (domainPath outPath : FPath) : Prop :=
  let migrateFileOnly := fs0.isFile domainPath
  let suffix := if migrateFileOnly then "original_domain.yml" else "original_domain"
  let backupLocation := domainPath.dropLast ++ [suffix]
  (fs0.files.map Prod.fst).Nodup ∧
  (∀ d ∈ fs0.dirs, fs0.isFile d = false) ∧
  (∀ pf ∈ fs0.files, backupLocation.isPrefixOf pf.1 = false) ∧
  (∀ d ∈ fs0.dirs, backupLocation.isPrefixOf d = false) ∧
  (∀ pf ∈ fs0.files, outPath.isPrefixOf pf.1 = false) ∧
  (∀ d ∈ fs0.dirs, ¬(outPath.isPrefixOf d = true ∧ d ≠ outPath)) ∧
  (migrateFileOnly = true → fs0.isDir outPath = false) ∧
  (∀ q ∈ pathPrefixes outPath, q = outPath ∨ fs0.isDir q = true) ∧
  domainPath.dropLast ∈ fs0.dirs ∧
  outPath ≠ domainPath ∧ outPath ≠ backupLocation ∧
  outPath ≠ [] ∧ domainPath ≠ [] ∧
  outPath.isPrefixOf backupLocation = false ∧
  backupLocation.isPrefixOf outPath = false ∧
  fs0.isDir outPath.dropLast = true

instance GoodSetup.instDecidable (fs0 : FS) (domainPath outPath : FPath) :
    Decidable (GoodSetup fs0 domainPath outPath) := by
  unfold GoodSetup
  dsimp only
  infer_instance

/-- A one-file, one-directory filesystem used to instantiate the atomicity
theorem at a concrete single-file migration. -/
def fs2w : FS :=
  ⟨[(["d", "dom.yml"], ⟨some [], true⟩)], [["d"]]⟩

/-- A filesystem where the requested output path is a pre-existing directory
already holding an unrelated user file, with a single-file domain input. -/
def fs2c : FS :=
  ⟨[(["p", "d.yml"], ⟨some [], true⟩),
    (["p", "out", "victim.txt"], ⟨none, false⟩)],
   [["p"], ["p", "out"]]⟩

/-- A two-file domain directory whose first file declares a one-entry
`forms` section and whose second file declares a `forms` section with
arbitrary content. -/
def fs8a (fn : String) (fd : FormData) (f2 : List (String × FormData)) : FS :=
  ⟨[(["p", "dd", "a.yml"],
      ⟨some [(KEY_FORMS, DocVal.vforms [(fn, fd)])], true⟩),
    (["p", "dd", "b.yml"],
      ⟨some [(KEY_FORMS, DocVal.vforms f2)], true⟩)],
   [["p"], ["p", "dd"]]⟩

/-- A document declaring an empty `forms` section and nothing else. -/
def d1c8 : Doc := [(KEY_FORMS, DocVal.vforms [])]

/-- A document declaring a nonempty `slots` section and a nonempty `forms`
section. -/
def d2c8 : Doc :=
  [(KEY_SLOTS, DocVal.vslots [("s1", ⟨none, none, []⟩)]),
   (KEY_FORMS, DocVal.vforms [("form_a", ⟨none, none, []⟩)])]

/-- A two-file domain directory in which both files declare a `forms`
section, the first one empty. -/
def fs8c : FS :=
  ⟨[(["p", "dd", "a.yml"], ⟨some d1c8, true⟩),
    (["p", "dd", "b.yml"], ⟨some d2c8, true⟩)],
   [["p"], ["p", "dd"]]⟩

/-- A two-file domain directory in which both files declare a nonempty
`slots` section. -/
def fs8s : FS :=
  ⟨[(["p", "dd", "a.yml"],
      ⟨some [(KEY_SLOTS, DocVal.vslots [("s1", ⟨none, none, []⟩)])], true⟩),
    (["p", "dd", "b.yml"],
      ⟨some [(KEY_SLOTS, DocVal.vslots [("s2", ⟨none, none, []⟩)])], true⟩)],
   [["p"], ["p", "dd"]]⟩

/-- A two-file domain directory in which neither file declares a `slots` or
a `forms` section (each only lists entities). -/
def fs9a (es1 es2 : List String) : FS :=
  ⟨[(["p", "dd", "a.yml"],
      ⟨some [(KEY_ENTITIES, DocVal.vents es1)], true⟩),
    (["p", "dd", "b.yml"],
      ⟨some [(KEY_ENTITIES, DocVal.vents es2)], true⟩)],
   [["p"], ["p", "dd"]]⟩

/-- A one-file domain directory paired with an output path whose ancestor
directory `p/a` does not yet exist. -/
def fs2d : FS :=
  ⟨[(["p", "dd", "a.yml"], ⟨some [(KEY_ENTITIES, DocVal.vents ["e"])], true⟩)],
   [["p"], ["p", "dd"]]⟩

/-- A document with neither a `slots` nor a `forms` section. -/
def d9c : Doc := [(KEY_ENTITIES, DocVal.vents ["e1"])]

/-- A single-file domain whose document has neither `slots` nor `forms`. -/
def fs9c : FS := ⟨[(["p", "dom.yml"], ⟨some d9c, true⟩)], [["p"]]⟩

/-! ## Basic dictionary lemmas -/

theorem dictLookup_nil {α : Type} (k : String) :
    dictLookup ([] : List (String × α)) k = none := rfl

theorem dictLookup_cons {α : Type} (kv : String × α) (d : List (String × α))
    (k : String) :
    dictLookup (kv :: d) k = if kv.1 == k then some kv.2 else dictLookup d k := by
  unfold dictLookup
  rw [List.find?_cons]
  cases h : kv.1 == k
  · simp
  · simp

theorem dictLookup_eq_none_of_not_mem {α : Type} (d : List (String × α))
    (k : String) (h : k ∉ d.map Prod.fst) : dictLookup d k = none := by
  induction d with
  | nil => rfl
  | cons kv rest ih =>
    rw [dictLookup_cons]
    simp only [List.map_cons, List.mem_cons] at h
    push_neg at h
    have hne : ¬((kv.1 == k) = true) := by
      simp only [beq_iff_eq]
      exact fun he => h.1 he.symm
    rw [if_neg hne]
    exact ih h.2

theorem dictLookup_mem_nodup {α : Type} (d : List (String × α))
    (kv : String × α) (hnd : (d.map Prod.fst).Nodup) (hm : kv ∈ d) :
    dictLookup d kv.1 = some kv.2 := by
  induction d with
  | nil => cases hm
  | cons hd rest ih =>
    rw [dictLookup_cons]
    simp only [List.map_cons, List.nodup_cons] at hnd
    rcases List.mem_cons.mp hm with h | h
    · subst h; simp
    · have hne : hd.1 ≠ kv.1 := by
        intro he
        exact hnd.1 (he ▸ List.mem_map_of_mem Prod.fst h)
      rw [if_neg (by simpa [beq_iff_eq] using hne)]
      exact ih hnd.2 h

theorem dictEq_refl (d : Dict) (h : (d.map Prod.fst).Nodup) : dictEq d d = true := by
  have : dictLe d d = true := by
    simp only [dictLe, List.all_eq_true]
    intro kv hm
    simp [dictLookup_mem_nodup d kv h hm]
  simp [dictEq, this]

theorem ruleEq_stripped_refl (f : Dict) (h : (f.map Prod.fst).Nodup) :
    ruleEq ⟨f, none⟩ ⟨f, none⟩ = true := by
  simp [ruleEq, dictEq_refl f h]

/-! ## C6: ordering of the merge output -/

theorem removeFirstRule_sublist (l : List Rule) (r : Rule) :
    (removeFirstRule l r).Sublist l := by
  induction l with
  | nil => simp [removeFirstRule]
  | cons m ms ih =>
    rw [removeFirstRule]
    split
    · exact List.sublist_cons_self m ms
    · exact ih.cons₂ m

theorem processExisting_spec (condition : Dict) (slotName : String)
    (existingMappings newMappings : List Rule) :
    (processExisting condition slotName existingMappings newMappings).1.map Rule.fields
        = existingMappings.map Rule.fields
      ∧ (processExisting condition slotName existingMappings newMappings).2.Sublist
          newMappings := by
  induction existingMappings generalizing newMappings with
  | nil => simp [processExisting, List.Sublist.refl]
  | cons e es ih =>
    rw [processExisting]
    split
    · have h := ih (removeFirstRule newMappings ⟨e.fields, none⟩)
      refine ⟨by simpa using h.1, h.2.trans (removeFirstRule_sublist _ _)⟩
    · have h := ih newMappings
      exact ⟨by simpa using h.1, h.2⟩

/-- C6: the merge output lists the existing rules first, in their original
order (each keeping its non-`conditions` fields), followed by the genuinely
new rules - the remaining ones, a sublist of the form's declarations in
declaration order - each with its condition attached. -/
theorem merge_output_ordering (existingMappings newMappings : List Rule)
    (condition : Dict) (slotName : String) :
    get_updated_or_new_mappings existingMappings newMappings condition slotName
        = (processExisting condition slotName existingMappings newMappings).1
          ++ (processExisting condition slotName existingMappings newMappings).2.map
              (attachNewCondition condition slotName)
      ∧ (processExisting condition slotName existingMappings newMappings).1.map Rule.fields
          = existingMappings.map Rule.fields
      ∧ (processExisting condition slotName existingMappings newMappings).2.Sublist
          newMappings :=
  ⟨rfl, (processExisting_spec condition slotName existingMappings newMappings).1,
    (processExisting_spec condition slotName existingMappings newMappings).2⟩

/-! ## C3: condition qualification -/

/-- C3: a rule merged under form `formName` receives the bare active-loop
condition when its type is `from_entity` or `from_trigger_intent`, and the
condition extended with the requested-slot qualifier (the slot's own name)
for every other type; this is the condition attached both to a shared
existing rule and to a genuinely new rule. -/
theorem condition_qualification (formName slotName : String) (r : Rule)
    (cs : List Dict) (h : (r.fields.map Prod.fst).Nodup) :
    get_updated_mapping_condition [(ACTIVE_LOOP, formName)] r slotName
        = (if dictLookup r.fields "type" == some FROM_ENTITY
              || dictLookup r.fields "type" == some FROM_TRIGGER_INTENT then
             [(ACTIVE_LOOP, formName)]
           else [(ACTIVE_LOOP, formName), (REQUESTED_SLOT, slotName)])
      ∧ get_updated_or_new_mappings [⟨r.fields, some cs⟩] [⟨r.fields, none⟩]
            [(ACTIVE_LOOP, formName)] slotName
          = [⟨r.fields, some (cs ++
              [get_updated_mapping_condition [(ACTIVE_LOOP, formName)] ⟨r.fields, none⟩ slotName])⟩]
      ∧ get_updated_or_new_mappings [] [r] [(ACTIVE_LOOP, formName)] slotName
          = [⟨r.fields, some [get_updated_mapping_condition [(ACTIVE_LOOP, formName)] r slotName]⟩] := by
  refine ⟨?_, ?_, ?_⟩
  · simp only [get_updated_mapping_condition]
    split
    · rfl
    · have hne : (ACTIVE_LOOP == REQUESTED_SLOT) = false := by decide
      simp [dictUpdate, dictSet, dictLookup, hne]
  · have hc : rulesContain [(⟨r.fields, none⟩ : Rule)] ⟨r.fields, none⟩ = true := by
      simp [rulesContain, ruleEq_stripped_refl r.fields h]
    have hr : removeFirstRule [(⟨r.fields, none⟩ : Rule)] ⟨r.fields, none⟩ = [] := by
      simp [removeFirstRule, ruleEq_stripped_refl r.fields h]
    simp [get_updated_or_new_mappings, processExisting, hc, hr]
  · simp [get_updated_or_new_mappings, processExisting, attachNewCondition]

theorem condition_qualification_witness :
    get_updated_or_new_mappings [] [⟨[("type", "custom")], none⟩]
        [(ACTIVE_LOOP, "booking_form")] "city"
      = [⟨[("type", "custom")],
          some [[(ACTIVE_LOOP, "booking_form"), (REQUESTED_SLOT, "city")]]⟩] := by
  have h := (condition_qualification "booking_form" "city"
    ⟨[("type", "custom")], none⟩ [] (by decide)).2.2
  rw [h]
  decide

/-! ## C4: every slot ends up with at least one mapping -/

theorem auto_fill_foldl (ents : List String)
    (slots : List (String × SlotProps))
    (acc : List (String × SlotProps) × List String) :
    slots.foldl (auto_fill_step ents) acc
      = (acc.1 ++ slots.map
            (fun s => (s.1, (migrate_custom_slots s.1 (migrate_auto_fill s.1 s.2 ents)).1)),
         acc.2 ++ (slots.filter
            (fun s => ((migrate_auto_fill s.1 s.2 ents).mappings.getD []).isEmpty)).map
              Prod.fst) := by
  induction slots generalizing acc with
  | nil => simp
  | cons s rest ih =>
    rw [List.foldl_cons, ih]
    by_cases hm : (migrate_auto_fill s.1 s.2 ents).mappings.getD [] = []
    · have hb : ((migrate_auto_fill s.1 s.2 ents).mappings.getD []).isEmpty = true := by
        simp [hm]
      simp [auto_fill_step, migrate_custom_slots, hm, hb, List.filter_cons]
    · have hb : ((migrate_auto_fill s.1 s.2 ents).mappings.getD []).isEmpty = false := by
        simpa using hm
      simp [auto_fill_step, migrate_custom_slots, hm, hb, List.filter_cons]

theorem custom_slots_result_nonempty (name : String) (p : SlotProps) :
    (((migrate_custom_slots name p).1.mappings.getD []).isEmpty) = false := by
  rw [migrate_custom_slots]
  split
  · simp
  · simp_all

/-- C4: the auto-fill/custom pass maps each slot through
`_migrate_auto_fill` then `_migrate_custom_slots`; the warnings are exactly
the names of the slots left without mappings after auto-fill; such a slot
receives exactly the single placeholder rule of type `custom`; and every
slot of the final table has a nonempty mapping list. -/
theorem every_slot_gets_a_mapping (domain : Doc)
    (slots : List (String × SlotProps)) :
    (migrate_auto_fill_and_custom_slots domain slots).1
        = slots.map (fun s =>
            (s.1, (migrate_custom_slots s.1 (migrate_auto_fill s.1 s.2 (getEntities domain))).1))
      ∧ (migrate_auto_fill_and_custom_slots domain slots).2
        = (slots.filter (fun s =>
            ((migrate_auto_fill s.1 s.2 (getEntities domain)).mappings.getD []).isEmpty)).map
              Prod.fst
      ∧ (∀ p : SlotProps, (p.mappings.getD []).isEmpty = true →
          ∀ name, migrate_custom_slots name p
            = ({ p with mappings := some [customRule] }, [name]))
      ∧ (migrate_auto_fill_and_custom_slots domain slots).1.all
            (fun s => !((s.2.mappings.getD []).isEmpty)) = true := by
  have hfold := auto_fill_foldl (getEntities domain) slots ([], [])
  refine ⟨?_, ?_, ?_, ?_⟩
  · rw [migrate_auto_fill_and_custom_slots, hfold]; simp
  · rw [migrate_auto_fill_and_custom_slots, hfold]; simp
  · intro p hp name
    rw [migrate_custom_slots, if_pos hp]
  · rw [migrate_auto_fill_and_custom_slots, hfold]
    simp only [List.nil_append, List.all_eq_true, List.mem_map]
    rintro s ⟨a, _, rfl⟩
    simp [custom_slots_result_nonempty]

theorem every_slot_gets_a_mapping_witness :
    (migrate_auto_fill_and_custom_slots []
        [("city", ⟨none, some [], []⟩)]).1.all
          (fun s => !((s.2.mappings.getD []).isEmpty)) = true :=
  (every_slot_gets_a_mapping [] [("city", ⟨none, some [], []⟩)]).2.2.2

/-! ## C5: auto-fill rule addition -/

/-- C5 (amended): for a slot named in `entities` with `auto_fill` absent or
true, the bare rule `{type: from_entity, entity: slot_name}` is appended if
and only if no rule equal to it as a whole Python dict (so including any
`conditions` or extra fields) is already present; the `auto_fill` property
is removed in every case. -/
theorem migrate_auto_fill_characterization (slotName : String)
    (properties : SlotProps) (entities : List String) :
    migrate_auto_fill slotName properties entities
      = if entities.contains slotName && properties.autoFill.getD true
            && !(rulesContain (properties.mappings.getD []) (fromEntityRule slotName)) then
          ⟨none, some (properties.mappings.getD [] ++ [fromEntityRule slotName]),
            properties.others⟩
        else { properties with autoFill := none } := by
  rw [migrate_auto_fill]
  by_cases hc : slotName ∈ entities <;>
    by_cases ha : properties.autoFill.getD true = true <;>
      by_cases hr : rulesContain (properties.mappings.getD [])
          (fromEntityRule slotName) = true <;>
        simp [hc, ha, hr]

theorem migrate_auto_fill_characterization_witness :
    migrate_auto_fill "city" ⟨some false, none, []⟩ ["city"]
      = ⟨none, none, []⟩ := by
  rw [migrate_auto_fill_characterization "city" ⟨some false, none, []⟩ ["city"]]
  decide

/-- C5 counterexample: a slot named `cuisine`, listed in `entities`, whose
mapping list already holds a `from_entity` rule for entity `cuisine` (but
carrying a `conditions` key, as every rule does after the form-slot pass):
the code still appends the bare auto-fill rule, although a rule of type
`from_entity` with that entity name is already present. -/
theorem migrate_auto_fill_cex :
    (([⟨[("type", FROM_ENTITY), ("entity", "cuisine")],
        some [[(ACTIVE_LOOP, "restaurant_form")]]⟩] : List Rule).any
      (fun r => dictLookup r.fields "type" == some FROM_ENTITY
        && dictLookup r.fields "entity" == some "cuisine")) = true
    ∧ (migrate_auto_fill "cuisine"
        ⟨none,
         some [⟨[("type", FROM_ENTITY), ("entity", "cuisine")],
           some [[(ACTIVE_LOOP, "restaurant_form")]]⟩], []⟩
        ["cuisine"]).mappings
      = some [⟨[("type", FROM_ENTITY), ("entity", "cuisine")],
                some [[(ACTIVE_LOOP, "restaurant_form")]]⟩,
              fromEntityRule "cuisine"] := by
  constructor
  · decide
  · decide

/-! ## C1: a rule shared by N forms accumulates N conditions -/

theorem c1_step (slotName entity fn : String) (copt : Option (List Dict))
    (nf : List (String × MigratedForm)) :
    process_form
        (nf, [(slotName,
          (⟨none, some [⟨[("type", FROM_ENTITY), ("entity", entity)], copt⟩], []⟩ : SlotProps))])
        (fn, ⟨none, none, [(slotName, [fromEntityRule entity])]⟩)
      = (nf ++ [(fn, ⟨[], [slotName]⟩)],
         [(slotName, ⟨none,
            some [⟨[("type", FROM_ENTITY), ("entity", entity)],
              some (copt.getD [] ++ [[(ACTIVE_LOOP, fn)]])⟩], []⟩)]) := by
  have hmap : (([("type", FROM_ENTITY), ("entity", entity)] : Dict).map Prod.fst)
      = ["type", "entity"] := rfl
  have hnd : (([("type", FROM_ENTITY), ("entity", entity)] : Dict).map Prod.fst).Nodup := by
    rw [hmap]; decide
  have hre : ruleEq ⟨[("type", FROM_ENTITY), ("entity", entity)], none⟩
      ⟨[("type", FROM_ENTITY), ("entity", entity)], none⟩ = true :=
    ruleEq_stripped_refl _ hnd
  have hty : dictLookup ([("type", FROM_ENTITY), ("entity", entity)] : Dict) "type"
      = some FROM_ENTITY := by
    rw [dictLookup_cons]; simp
  simp [process_form, effective_decls, form_slot_step, get_updated_or_new_mappings,
    processExisting, rulesContain, removeFirstRule, get_updated_mapping_condition,
    hre, hty, dictSet, dictLookup_cons, fromEntityRule]

theorem c1_fold (slotName entity : String) (fns : List String) (cs : List Dict)
    (nf : List (String × MigratedForm)) :
    ((fns.map (fun fn =>
        (fn, (⟨none, none, [(slotName, [fromEntityRule entity])]⟩ : FormData)))).foldl
      process_form
      (nf, [(slotName, ⟨none,
        some [⟨[("type", FROM_ENTITY), ("entity", entity)], some cs⟩], []⟩)])).2
      = [(slotName, ⟨none,
          some [⟨[("type", FROM_ENTITY), ("entity", entity)],
            some (cs ++ fns.map (fun fn => [(ACTIVE_LOOP, fn)]))⟩], []⟩)] := by
  induction fns generalizing cs nf with
  | nil => simp
  | cons fn rest ih =>
    rw [List.map_cons, List.foldl_cons, c1_step]
    simp only [Option.getD_some]
    rw [ih]
    simp

/-- C1: a slot whose existing rule list holds the single legacy rule
`{type: from_entity, entity: e}`, referenced identically by each of the
forms in `formNames`, migrates (through the form-slot pass and the
auto-fill/custom pass) to exactly one copy of that rule carrying one
accumulated `active_loop` condition per form, in form order - never a
duplicate rule. -/
theorem shared_rule_accumulates_conditions (slotName entity : String)
    (formNames : List String) (h : formNames ≠ []) :
    (migrate_auto_fill_and_custom_slots
        [(KEY_SLOTS, DocVal.vslots
            [(slotName, ⟨none, some [fromEntityRule entity], []⟩)]),
         (KEY_FORMS, DocVal.vforms (formNames.map (fun fn =>
            (fn, ⟨none, none, [(slotName, [fromEntityRule entity])]⟩))))]
        (migrate_form_slots
          [(KEY_SLOTS, DocVal.vslots
              [(slotName, ⟨none, some [fromEntityRule entity], []⟩)]),
           (KEY_FORMS, DocVal.vforms (formNames.map (fun fn =>
              (fn, ⟨none, none, [(slotName, [fromEntityRule entity])]⟩))))]).2).1
      = [(slotName, ⟨none,
          some [⟨[("type", FROM_ENTITY), ("entity", entity)],
            some (formNames.map (fun fn => [(ACTIVE_LOOP, fn)]))⟩], []⟩)] := by
  cases formNames with
  | nil => cases h rfl
  | cons f rest =>
    have hforms : getFormsTable
        [(KEY_SLOTS, DocVal.vslots
            [(slotName, ⟨none, some [fromEntityRule entity], []⟩)]),
         (KEY_FORMS, DocVal.vforms ((f :: rest).map (fun fn =>
            (fn, ⟨none, none, [(slotName, [fromEntityRule entity])]⟩))))]
        = (f :: rest).map (fun fn =>
            (fn, ⟨none, none, [(slotName, [fromEntityRule entity])]⟩)) := by
      simp [getFormsTable, dictLookup_cons, KEY_SLOTS, KEY_FORMS]
    have hslots : getSlotsTable
        [(KEY_SLOTS, DocVal.vslots
            [(slotName, ⟨none, some [fromEntityRule entity], []⟩)]),
         (KEY_FORMS, DocVal.vforms ((f :: rest).map (fun fn =>
            (fn, ⟨none, none, [(slotName, [fromEntityRule entity])]⟩))))]
        = [(slotName, ⟨none, some [fromEntityRule entity], []⟩)] := by
      simp [getSlotsTable, dictLookup_cons, KEY_SLOTS]
    have hents : getEntities
        [(KEY_SLOTS, DocVal.vslots
            [(slotName, ⟨none, some [fromEntityRule entity], []⟩)]),
         (KEY_FORMS, DocVal.vforms ((f :: rest).map (fun fn =>
            (fn, ⟨none, none, [(slotName, [fromEntityRule entity])]⟩))))]
        = [] := by
      simp [getEntities, dictLookup_cons, dictLookup_nil, KEY_SLOTS, KEY_FORMS,
        KEY_ENTITIES]
    have hfs : (migrate_form_slots
        [(KEY_SLOTS, DocVal.vslots
            [(slotName, ⟨none, some [fromEntityRule entity], []⟩)]),
         (KEY_FORMS, DocVal.vforms ((f :: rest).map (fun fn =>
            (fn, ⟨none, none, [(slotName, [fromEntityRule entity])]⟩))))]).2
        = [(slotName, ⟨none,
            some [⟨[("type", FROM_ENTITY), ("entity", entity)],
              some ((f :: rest).map (fun fn => [(ACTIVE_LOOP, fn)]))⟩], []⟩)] := by
      rw [migrate_form_slots, hforms, hslots]
      rw [List.map_cons, List.foldl_cons]
      have : ([(slotName, (⟨none, some [fromEntityRule entity], []⟩ : SlotProps))])
          = [(slotName, (⟨none,
              some [⟨[("type", FROM_ENTITY), ("entity", entity)], none⟩], []⟩ : SlotProps))] := rfl
      rw [this, c1_step]
      simp only [Option.getD_none, List.nil_append]
      rw [c1_fold]
      simp
    rw [hfs, migrate_auto_fill_and_custom_slots, hents]
    simp [auto_fill_step, migrate_auto_fill, migrate_custom_slots]

theorem shared_rule_accumulates_conditions_witness :
    (["restaurant_form", "cafe_form"] : List String) ≠ []
    ∧ (migrate_auto_fill_and_custom_slots
        [(KEY_SLOTS, DocVal.vslots
            [("cuisine", ⟨none, some [fromEntityRule "cuisine"], []⟩)]),
         (KEY_FORMS, DocVal.vforms ((["restaurant_form", "cafe_form"] : List String).map (fun fn =>
            (fn, ⟨none, none, [("cuisine", [fromEntityRule "cuisine"])]⟩))))]
        (migrate_form_slots
          [(KEY_SLOTS, DocVal.vslots
              [("cuisine", ⟨none, some [fromEntityRule "cuisine"], []⟩)]),
           (KEY_FORMS, DocVal.vforms ((["restaurant_form", "cafe_form"] : List String).map (fun fn =>
              (fn, ⟨none, none, [("cuisine", [fromEntityRule "cuisine"])]⟩))))]).2).1
      = [("cuisine", ⟨none,
          some [⟨[("type", FROM_ENTITY), ("entity", "cuisine")],
            some [[(ACTIVE_LOOP, "restaurant_form")], [(ACTIVE_LOOP, "cafe_form")]]⟩], []⟩)] :=
  ⟨by decide,
   shared_rule_accumulates_conditions "cuisine" "cuisine"
     ["restaurant_form", "cafe_form"] (by decide)⟩

/-! ## C7: the assembler preserves keys, order and unrelated values -/

theorem dictLookup_append {α : Type} (a b : List (String × α)) (k : String) :
    dictLookup (a ++ b) k
      = match dictLookup a k with
        | some v => some v
        | none => dictLookup b k := by
  induction a with
  | nil => simp [dictLookup_nil]
  | cons kv rest ih =>
    rw [List.cons_append, dictLookup_cons, dictLookup_cons]
    cases h : kv.1 == k <;> simp [ih]

theorem dictSet_not_mem {α : Type} (d : List (String × α)) (k : String) (v : α)
    (h : dictLookup d k = none) : dictSet d k v = d ++ [(k, v)] := by
  simp [dictSet, h]

theorem assemble_foldl (newForms : List (String × MigratedForm))
    (newSlots : List (String × SlotProps)) (orig : Doc) (acc : Doc)
    (hnd : (orig.map Prod.fst).Nodup)
    (hacc : ∀ kv ∈ orig, dictLookup acc kv.1 = none) :
    orig.foldl (assemble_step newForms newSlots) acc
      = acc ++ orig.map (fun kv =>
          (kv.1,
           if kv.1 == KEY_SLOTS then DocVal.vmslots newSlots
           else if kv.1 == KEY_FORMS then DocVal.vmforms newForms
           else if kv.1 == "version" then DocVal.vstr TARGET_VERSION
           else kv.2)) := by
  induction orig generalizing acc with
  | nil => simp
  | cons kv rest ih =>
    rw [List.foldl_cons]
    have h0 : dictLookup acc kv.1 = none := hacc kv (List.mem_cons_self kv rest)
    have hstep : assemble_step newForms newSlots acc kv
        = acc ++ [(kv.1,
            if kv.1 == KEY_SLOTS then DocVal.vmslots newSlots
            else if kv.1 == KEY_FORMS then DocVal.vmforms newForms
            else if kv.1 == "version" then DocVal.vstr TARGET_VERSION
            else kv.2)] := by
      by_cases h1 : (kv.1 == KEY_SLOTS) = true <;>
        by_cases h2 : (kv.1 == KEY_FORMS) = true <;>
          by_cases h3 : (kv.1 == "version") = true <;>
            simp [assemble_step, h1, h2, h3, dictSet_not_mem _ _ _ h0]
    rw [hstep]
    simp only [List.map_cons, List.nodup_cons] at hnd
    have hacc2 : ∀ kv2 ∈ rest,
        dictLookup (acc ++ [(kv.1,
          if kv.1 == KEY_SLOTS then DocVal.vmslots newSlots
          else if kv.1 == KEY_FORMS then DocVal.vmforms newForms
          else if kv.1 == "version" then DocVal.vstr TARGET_VERSION
          else kv.2)]) kv2.1 = none := by
      intro kv2 hm
      rw [dictLookup_append, hacc kv2 (List.mem_cons_of_mem kv hm)]
      rw [dictLookup_cons]
      have hne : ¬((kv.1 == kv2.1) = true) := by
        simp only [beq_iff_eq]
        intro he
        exact hnd.1 (he ▸ List.mem_map_of_mem Prod.fst hm)
      have hne2 : ¬kv.1 = kv2.1 := by simpa using hne
      simp [if_neg hne, dictLookup_nil, hne2]
    rw [ih _ hnd.2 hacc2]
    simp

/-- C7: the assembled output document walks the original document's keys in
their original order, substituting the new slot table for `slots`, the new
form table for `forms`, the quoted target marker for `version`, and copying
every other key's value unchanged. -/
theorem assemble_preserves_keys (originalContent : Doc)
    (newForms : List (String × MigratedForm))
    (newSlots : List (String × SlotProps))
    (h : (originalContent.map Prod.fst).Nodup) :
    assemble_new_domain originalContent newForms newSlots
      = originalContent.map (fun kv =>
          (kv.1,
           if kv.1 == KEY_SLOTS then DocVal.vmslots newSlots
           else if kv.1 == KEY_FORMS then DocVal.vmforms newForms
           else if kv.1 == "version" then DocVal.vstr TARGET_VERSION
           else kv.2)) := by
  rw [assemble_new_domain]
  rw [assemble_foldl newForms newSlots originalContent [] h (by intro kv _; rfl)]
  simp

theorem assemble_preserves_keys_witness :
    assemble_new_domain
        [("version", DocVal.vstr "2.0"),
         ("intents", DocVal.vother "greet"),
         (KEY_SLOTS, DocVal.vslots []),
         (KEY_FORMS, DocVal.vforms [])]
        [("f", ⟨[], []⟩)] [("s", defaultSlotProps)]
      = [("version", DocVal.vstr TARGET_VERSION),
         ("intents", DocVal.vother "greet"),
         (KEY_SLOTS, DocVal.vmslots [("s", defaultSlotProps)]),
         (KEY_FORMS, DocVal.vmforms [("f", ⟨[], []⟩)])] := by
  rw [assemble_preserves_keys _ _ _ (by decide)]
  decide

/-! ## C10: backup-path collision hits the `Path.isdir` AttributeError -/

/-- C10: whenever the computed backup location already exists, the run stops
during preflight with the filesystem untouched - but through an
`AttributeError` (the source calls the nonexistent `Path.isdir` while
building the message), not the `RasaException` the next line intends. -/
theorem backup_collision_raises_attribute_error (fs0 : FS) (domainPath : FPath)
    (outPathArg : Option FPath)
    (h : fs0.pathExists (domainPath.dropLast ++
      [if fs0.isFile domainPath then "original_domain.yml" else "original_domain"])
        = true) :
    migrate_domain_format fs0 domainPath outPathArg
      = ⟨fs0, Except.error MigErr.attributeError⟩ := by
  unfold migrate_domain_format
  simp only []
  rw [if_pos]
  cases hf : fs0.isFile domainPath <;> simp_all

theorem backup_collision_raises_attribute_error_witness :
    migrate_domain_format
        ⟨[(["p", "domain.yml"], ⟨some [("intents", DocVal.vother "greet")], true⟩),
          (["p", "original_domain.yml"], ⟨some [], false⟩)],
         [[], ["p"]]⟩
        ["p", "domain.yml"] (some ["p", "new.yml"])
      = ⟨⟨[(["p", "domain.yml"], ⟨some [("intents", DocVal.vother "greet")], true⟩),
          (["p", "original_domain.yml"], ⟨some [], false⟩)],
         [[], ["p"]]⟩, Except.error MigErr.attributeError⟩ :=
  backup_collision_raises_attribute_error _ _ _ (by decide)

/-! ## Filesystem primitive lemmas -/

theorem isFile_eq_any (fs : FS) (q : FPath) :
    fs.isFile q = fs.files.any (fun pf => pf.1 == q) := by
  unfold FS.isFile FS.lookupFile
  induction fs.files with
  | nil => rfl
  | cons pf rest ih =>
    rw [List.find?_cons, List.any_cons]
    cases h : pf.1 == q <;> simp [h, ih]

theorem isFile_mk (files : List (FPath × FileData)) (dirs : List FPath) (q : FPath) :
    FS.isFile ⟨files, dirs⟩ q = files.any (fun pf => pf.1 == q) :=
  isFile_eq_any ⟨files, dirs⟩ q

theorem setFile_fresh (fs : FS) (p : FPath) (fd : FileData)
    (h : fs.isFile p = false) :
    fs.setFile p fd = ⟨fs.files ++ [(p, fd)], fs.dirs⟩ := by
  simp [FS.setFile, h]

theorem concat_inj (x y : FPath) (a b : String) (h : x ++ [a] = y ++ [b]) :
    x = y ∧ a = b := by
  have h1 : x = y := by
    have := congrArg List.dropLast h
    simpa using this
  subst h1
  simp at h
  exact ⟨rfl, h⟩

theorem prefix_concat_self (x : FPath) (a : String) :
    x.isPrefixOf (x ++ [a]) = true := by
  rw [List.isPrefixOf_iff_prefix]
  exact List.prefix_append x [a]

theorem lookupFile_mk_append (a b : List (FPath × FileData)) (dirs : List FPath)
    (q : FPath) (hb : ∀ pf ∈ b, pf.1 ≠ q) :
    FS.lookupFile ⟨a ++ b, dirs⟩ q = FS.lookupFile ⟨a, dirs⟩ q := by
  unfold FS.lookupFile
  have hb0 : b.find? (fun pf => pf.1 == q) = none := by
    rw [List.find?_eq_none]
    intro pf hm
    simpa using hb pf hm
  simp [List.find?_append, hb0]

theorem writeYaml_ok (fs : FS) (p : FPath) (d : Doc) (fs1 : FS)
    (h : writeYaml fs p d = Except.ok fs1) :
    fs1 = fs.setFile p ⟨some d, true⟩
      ∧ fs.isDir p = false ∧ fs.isDir p.dropLast = true := by
  unfold writeYaml at h
  by_cases h1 : fs.isDir p = true
  · rw [if_pos h1] at h; cases h
  · rw [if_neg h1] at h
    by_cases h2 : fs.isDir p.dropLast = true
    · rw [if_neg (by simp [h2])] at h
      cases h
      exact ⟨rfl, by simpa using h1, h2⟩
    · rw [if_pos (by simpa using h2)] at h; cases h

theorem readYamlFile_congr (fs fs' : FS) (p : FPath)
    (h : fs.lookupFile p = fs'.lookupFile p) :
    readYamlFile fs p = readYamlFile fs' p := by
  unfold readYamlFile
  rw [h]

theorem create_back_up_error_fs (fs : FS) (file bl : FPath) (e : MigErr) (fsE : FS)
    (h : create_back_up fs file bl = Except.error (e, fsE)) : fsE = fs := by
  unfold create_back_up at h
  cases hr : readYamlFile fs file with
  | error e0 => rw [hr] at h; cases h; rfl
  | ok d =>
    rw [hr] at h
    dsimp only at h
    cases hw : writeYaml fs bl d with
    | error e0 => rw [hw] at h; cases h; rfl
    | ok fs1 => rw [hw] at h; cases h

theorem create_back_up_ok (fs : FS) (file bl : FPath) (d : Doc) (fs1 : FS)
    (h : create_back_up fs file bl = Except.ok (d, fs1)) :
    readYamlFile fs file = Except.ok d
      ∧ fs1 = fs.setFile bl ⟨some d, true⟩
      ∧ fs.isDir bl = false ∧ fs.isDir bl.dropLast = true := by
  unfold create_back_up at h
  cases hr : readYamlFile fs file with
  | error e0 => rw [hr] at h; cases h
  | ok d0 =>
    rw [hr] at h
    dsimp only at h
    cases hw : writeYaml fs bl d0 with
    | error e0 => rw [hw] at h; cases h
    | ok fs2 =>
      rw [hw] at h
      cases h
      have hw2 := writeYaml_ok fs bl _ _ hw
      exact ⟨rfl, hw2.1, hw2.2.1, hw2.2.2⟩

theorem mkdirPlain_ok (fs : FS) (p : FPath) (fs1 : FS)
    (h : fs.mkdirPlain p = Except.ok fs1) :
    fs1 = ⟨fs.files, fs.dirs ++ [p]⟩
      ∧ fs.pathExists p = false ∧ fs.isDir p.dropLast = true := by
  unfold FS.mkdirPlain at h
  by_cases h1 : fs.pathExists p = true
  · rw [if_pos h1] at h; cases h
  · rw [if_neg h1] at h
    by_cases h2 : fs.isDir p.dropLast = true
    · rw [if_neg (by simp [h2])] at h
      cases h
      exact ⟨rfl, by simpa using h1, h2⟩
    · rw [if_pos (by simpa using h2)] at h; cases h

theorem mkdirPlain_ok_of (fs : FS) (p : FPath)
    (h1 : fs.pathExists p = false) (h2 : fs.isDir p.dropLast = true) :
    fs.mkdirPlain p = Except.ok ⟨fs.files, fs.dirs ++ [p]⟩ := by
  unfold FS.mkdirPlain
  rw [if_neg (by simp [h1]), if_neg (by simp [h2])]

/-! ## Invariant lemmas for the try phase -/

theorem ExtraOnly_refl (bl op : FPath) (fs : FS) : ExtraOnly bl op fs fs :=
  ⟨rfl, [], by simp, by simp⟩

theorem dropLast_eq_imp_ne_nil (q r : FPath) (h : q.dropLast = r) (hne : q ≠ r) :
    q ≠ [] := by
  rintro rfl
  simp only [List.dropLast_nil] at h
  exact hne h

theorem map_eq_self_of {α : Type} (l : List α) (f : α → α)
    (h : ∀ a ∈ l, f a = a) : l.map f = l := by
  induction l with
  | nil => rfl
  | cons a rest ih =>
    rw [List.map_cons, h a (List.mem_cons_self a rest),
      ih (fun b hb => h b (List.mem_cons_of_mem a hb))]

theorem dropLast_eq_imp_concat (q r : FPath) (h : q.dropLast = r) (hne : q ≠ r) :
    q = r ++ [q.getLast (dropLast_eq_imp_ne_nil q r h hne)] := by
  conv_lhs => rw [← List.dropLast_append_getLast (dropLast_eq_imp_ne_nil q r h hne)]
  rw [h]

theorem dropLast_eq_imp_pref (q r : FPath) (h : q.dropLast = r) (hne : q ≠ r) :
    r.isPrefixOf q = true := by
  rw [dropLast_eq_imp_concat q r h hne]
  exact prefix_concat_self r _

theorem setFile_preserves_extra (bl op : FPath) (fs0 fs : FS) (p : FPath)
    (fd : FileData) (hEx : ExtraOnly bl op fs0 fs)
    (hp : (p.dropLast = bl ∨ p.dropLast = op) ∧ p ≠ bl ∧ p ≠ op)
    (hclean : ∀ pf ∈ fs0.files,
      bl.isPrefixOf pf.1 = false ∧ op.isPrefixOf pf.1 = false) :
    ExtraOnly bl op fs0 (fs.setFile p fd) := by
  obtain ⟨hdirs, extra, hfiles, hextra⟩ := hEx
  have hfs0p : ∀ pf ∈ fs0.files, pf.1 ≠ p := by
    intro pf hm hcontra
    rcases hp.1 with hb | ho
    · have := dropLast_eq_imp_pref p bl hb hp.2.1
      rw [← hcontra] at this
      rw [(hclean pf hm).1] at this
      cases this
    · have := dropLast_eq_imp_pref p op ho hp.2.2
      rw [← hcontra] at this
      rw [(hclean pf hm).2] at this
      cases this
  by_cases hex : fs.isFile p = true
  · unfold FS.setFile
    rw [if_pos (by unfold FS.isFile at hex ⊢; exact hex)]
    refine ⟨hdirs, extra.map (fun pf => if pf.1 == p then (p, fd) else pf), ?_, ?_⟩
    · rw [hfiles, List.map_append]
      have hid : fs0.files.map (fun pf => if pf.1 == p then (p, fd) else pf)
          = fs0.files := by
        refine map_eq_self_of _ _ ?_
        intro pf hm
        simp [hfs0p pf hm]
      rw [hid]
    · intro pf hm
      rcases List.mem_map.mp hm with ⟨pf0, hm0, rfl⟩
      by_cases he : (pf0.1 == p) = true
      · simp only [he, if_true]
        exact hp
      · simp only [he]
        simp only [Bool.false_eq_true, if_false]
        exact hextra pf0 hm0
  · have hex2 : fs.isFile p = false := by simpa using hex
    rw [setFile_fresh fs p fd hex2]
    refine ⟨hdirs, extra ++ [(p, fd)], ?_, ?_⟩
    · simp [hfiles]
    · intro pf hm
      rcases List.mem_append.mp hm with hm0 | hm0
      · exact hextra pf hm0
      · simp only [List.mem_singleton] at hm0
        subst hm0
        exact hp

theorem ExtraOnly_isFile_false (bl op : FPath) (fs0 fs : FS) (q : FPath)
    (hEx : ExtraOnly bl op fs0 fs) (h0 : fs0.isFile q = false)
    (hq : q.dropLast ≠ bl ∧ q.dropLast ≠ op) :
    fs.isFile q = false := by
  obtain ⟨hdirs, extra, hfiles, hextra⟩ := hEx
  rw [isFile_eq_any, hfiles, List.any_append]
  rw [isFile_eq_any] at h0
  rw [h0]
  simp only [Bool.false_or]
  rw [List.any_eq_false]
  intro pf hm
  have := (hextra pf hm).1
  simp only [beq_iff_eq]
  intro hcontra
  rw [hcontra] at this
  rcases this with hb | ho
  · exact hq.1 hb
  · exact hq.2 ho

theorem ExtraOnly_lookup_stable (bl op : FPath) (fs0 fs : FS) (q : FPath)
    (hEx : ExtraOnly bl op fs0 fs)
    (hq : q.dropLast ≠ bl ∧ q.dropLast ≠ op) :
    fs.lookupFile q = fs0.lookupFile q := by
  obtain ⟨hdirs, extra, hfiles, hextra⟩ := hEx
  have h1 : fs = ⟨fs0.files ++ extra, fs.dirs⟩ := by
    cases fs with
    | mk fls ds =>
      simp only [FS.mk.injEq]
      exact ⟨hfiles, trivial⟩
  rw [h1]
  rw [lookupFile_mk_append fs0.files extra fs.dirs q ?hb]
  · unfold FS.lookupFile
    rfl
  · intro pf hm hcontra
    have := (hextra pf hm).1
    rw [hcontra] at this
    rcases this with hb | ho
    · exact hq.1 hb
    · exact hq.2 ho

theorem concat_ne_self (l : FPath) (a : String) : l ++ [a] ≠ l := by
  intro h
  have := congrArg List.length h
  simp at this

theorem concat_ne_of_no_pref (x y : FPath) (a : String)
    (h : x.isPrefixOf y = false) : x ++ [a] ≠ y := by
  intro he
  have := prefix_concat_self x a
  rw [he, h] at this
  cases this

theorem child_extra_cond (bl op : FPath) (n : String)
    (hbo : bl.isPrefixOf op = false) :
    ((bl ++ [n]).dropLast = bl ∨ (bl ++ [n]).dropLast = op)
      ∧ bl ++ [n] ≠ bl ∧ bl ++ [n] ≠ op :=
  ⟨Or.inl (List.dropLast_concat), concat_ne_self bl n,
    concat_ne_of_no_pref bl op n hbo⟩

theorem child_extra_cond_out (bl op : FPath) (n : String)
    (hob : op.isPrefixOf bl = false) :
    ((op ++ [n]).dropLast = bl ∨ (op ++ [n]).dropLast = op)
      ∧ op ++ [n] ≠ bl ∧ op ++ [n] ≠ op :=
  ⟨Or.inr (List.dropLast_concat), concat_ne_of_no_pref op bl n hob,
    concat_ne_self op n⟩

theorem mdfLoop_extra (dp bl op : FPath) (fs0 : FS)
    (hbo : bl.isPrefixOf op = false) (hob : op.isPrefixOf bl = false)
    (hclean : ∀ pf ∈ fs0.files,
      bl.isPrefixOf pf.1 = false ∧ op.isPrefixOf pf.1 = false) :
    ∀ (names : List String) (fs : FS) (slots : List (String × SlotProps))
      (forms : List (String × FormData)) (ents : List String),
      ExtraOnly bl op fs0 fs →
      ExtraOnly bl op fs0 (exceptFS (mdfLoop dp bl op fs names slots forms ents)) := by
  intro names
  induction names with
  | nil =>
    intro fs slots forms ents hEx
    rw [mdfLoop]
    split
    · exact hEx
    · exact hEx
  | cons n rest ih =>
    intro fs slots forms ents hEx
    rw [mdfLoop]
    cases hcb : create_back_up fs (dp ++ [n]) (bl ++ [n]) with
    | error efs =>
      have : efs.2 = fs := by
        rcases efs with ⟨e, fsE⟩
        exact create_back_up_error_fs fs (dp ++ [n]) (bl ++ [n]) e fsE hcb
      simp only [exceptFS]
      rw [this]
      exact hEx
    | ok pair =>
      rcases pair with ⟨d, fs1⟩
      have hspec := create_back_up_ok fs (dp ++ [n]) (bl ++ [n]) d fs1 hcb
      have hEx1 : ExtraOnly bl op fs0 fs1 := by
        rw [hspec.2.1]
        exact setFile_preserves_extra bl op fs0 fs (bl ++ [n]) ⟨some d, true⟩
          hEx (child_extra_cond bl op n hbo) hclean
      dsimp only
      split
      · cases hw : writeYaml fs1 (op ++ [n])
            (dictSet d "version" (DocVal.vstr TARGET_VERSION)) with
        | error e =>
          simpa only [exceptFS] using hEx1
        | ok fs2 =>
          have hw2 := writeYaml_ok _ _ _ _ hw
          have hEx2 : ExtraOnly bl op fs0 fs2 := by
            rw [hw2.1]
            exact setFile_preserves_extra bl op fs0 fs1 (op ++ [n]) _
              hEx1 (child_extra_cond_out bl op n hob) hclean
          exact ih fs2 _ _ _ hEx2
      · split
        · simpa only [exceptFS] using hEx1
        · split
          · simpa only [exceptFS] using hEx1
          · exact ih fs1 _ _ _ hEx1

theorem wfdLoop_extra (dp op bl : FPath)
    (newForms : List (String × MigratedForm)) (newSlots : List (String × SlotProps))
    (fs0 : FS) (hbo : bl.isPrefixOf op = false) (hob : op.isPrefixOf bl = false)
    (hclean : ∀ pf ∈ fs0.files,
      bl.isPrefixOf pf.1 = false ∧ op.isPrefixOf pf.1 = false) :
    ∀ (names : List String) (fs : FS),
      ExtraOnly bl op fs0 fs →
      ExtraOnly bl op fs0
        (exceptFSOnly (wfdLoop dp op newForms newSlots fs names)) := by
  intro names
  induction names with
  | nil =>
    intro fs hEx
    rw [wfdLoop]
    exact hEx
  | cons n rest ih =>
    intro fs hEx
    rw [wfdLoop]
    cases hr : readYamlFile fs (dp ++ [n]) with
    | error e =>
      simpa only [exceptFSOnly] using hEx
    | ok content =>
      dsimp only
      cases hw : writeYaml fs (op ++ [n])
          (assemble_new_domain content newForms newSlots) with
      | error e =>
        simpa only [exceptFSOnly] using hEx
      | ok fs1 =>
        have hw2 := writeYaml_ok _ _ _ _ hw
        have hEx1 : ExtraOnly bl op fs0 fs1 := by
          rw [hw2.1]
          exact setFile_preserves_extra bl op fs0 fs (op ++ [n]) _
            hEx (child_extra_cond_out bl op n hob) hclean
        exact ih fs1 hEx1

theorem write_final_domain_extra (dp op bl : FPath)
    (newForms : List (String × MigratedForm)) (newSlots : List (String × SlotProps))
    (fs0 fs : FS) (hbo : bl.isPrefixOf op = false) (hob : op.isPrefixOf bl = false)
    (hclean : ∀ pf ∈ fs0.files,
      bl.isPrefixOf pf.1 = false ∧ op.isPrefixOf pf.1 = false)
    (hEx : ExtraOnly bl op fs0 fs)
    (hdir : fs.isDir dp = true) :
    ExtraOnly bl op fs0
      (exceptFSOnly (write_final_domain fs dp newForms newSlots op)) := by
  rw [write_final_domain, if_pos hdir]
  exact wfdLoop_extra dp op bl newForms newSlots fs0 hbo hob hclean
    (fs.domainFileNames dp) fs hEx

theorem isDir_true_iff (fs : FS) (p : FPath) : fs.isDir p = true ↔ p ∈ fs.dirs := by
  simp [FS.isDir]

theorem isPrefixOf_self (l : FPath) : l.isPrefixOf l = true := by
  rw [List.isPrefixOf_iff_prefix]

theorem filter_not_prefix_eq_self {β : Type} (l : List (FPath × β)) (r : FPath)
    (h : ∀ pf ∈ l, r.isPrefixOf pf.1 = false) :
    l.filter (fun pf => !(r.isPrefixOf pf.1)) = l := by
  rw [List.filter_eq_self]
  intro pf hm
  simp [h pf hm]

theorem filter_dirs_not_prefix_eq_self (l : List FPath) (r : FPath)
    (h : ∀ d ∈ l, r.isPrefixOf d = false) :
    l.filter (fun d => !(r.isPrefixOf d)) = l := by
  rw [List.filter_eq_self]
  intro d hm
  simp [h d hm]

theorem childName_some_facts (d q : FPath) (n : String)
    (h : childName d q = some n) : q = d ++ [n] := by
  unfold childName at h
  cases hq : q.getLast? with
  | none => rw [hq] at h; cases h
  | some m =>
    rw [hq] at h
    dsimp only at h
    by_cases hdl : (q.dropLast == d) = true
    · rw [if_pos hdl] at h
      cases h
      rcases List.getLast?_eq_some_iff.mp hq with ⟨l2, rfl⟩
      have : (l2 ++ [n]).dropLast = l2 := List.dropLast_concat
      rw [this] at hdl
      have : l2 = d := by simpa using hdl
      rw [this]
    · rw [if_neg hdl] at h
      cases h

theorem childName_none_of_no_pref (d q : FPath)
    (h : d.isPrefixOf q = false) : childName d q = none := by
  cases hc : childName d q with
  | none => rfl
  | some n =>
    exfalso
    have := childName_some_facts d q n hc
    rw [this, prefix_concat_self] at h
    cases h

theorem childName_concat (d : FPath) (n : String) :
    childName d (d ++ [n]) = some n := by
  unfold childName
  rw [List.getLast?_concat]
  simp

theorem rmtree_files (fs : FS) (r : FPath) :
    (fs.rmtree r).files = fs.files.filter (fun pf => !(r.isPrefixOf pf.1)) := rfl

theorem rmtree_dirs (fs : FS) (r : FPath) :
    (fs.rmtree r).dirs = fs.dirs.filter (fun d => !(r.isPrefixOf d)) := rfl

theorem FS_eq_of (fs fs' : FS) (h1 : fs.files = fs'.files)
    (h2 : fs.dirs = fs'.dirs) : fs = fs' := by
  cases fs; cases fs'; simp_all

/-- The `except` block of `migrate_domain_format` restores the pre-run
filesystem exactly, in the directory-input case, when the initial
filesystem held nothing at or below the backup location or the output
path. -/
theorem rollback_restores (fs0 fsR : FS) (bl op : FPath) (created : Bool)
    (e : MigErr)
    (h1 : ∀ pf ∈ fs0.files, bl.isPrefixOf pf.1 = false ∧ op.isPrefixOf pf.1 = false)
    (h2 : ∀ d ∈ fs0.dirs, bl.isPrefixOf d = false)
    (h3 : ∀ d ∈ fs0.dirs, ¬(op.isPrefixOf d = true ∧ d ≠ op))
    (hbo : bl.isPrefixOf op = false)
    (hdirs : fsR.dirs = fs0.dirs ++ (if created then [op, bl] else [bl]))
    (hopdir : created = false → op ∈ fs0.dirs)
    (hopnotdir : created = true → op ∉ fs0.dirs)
    (hfiles : ∃ extra, fsR.files = fs0.files ++ extra ∧
       ∀ pf ∈ extra, (pf.1.dropLast = bl ∨ pf.1.dropLast = op)
         ∧ pf.1 ≠ bl ∧ pf.1 ≠ op) :
    rollback fsR bl op created e = ⟨fs0, Except.error e⟩ := by
  obtain ⟨extra, hf, hextra⟩ := hfiles
  have hbl_in : fsR.isDir bl = true := by
    rw [isDir_true_iff, hdirs]
    cases created <;> simp
  have hf1 : (fsR.rmtree bl).files
      = fs0.files ++ extra.filter (fun pf => !(bl.isPrefixOf pf.1)) := by
    unfold FS.rmtree
    rw [hf, List.filter_append,
      filter_not_prefix_eq_self fs0.files bl (fun pf hm => (h1 pf hm).1)]
  have hextra1 : ∀ pf ∈ extra.filter (fun pf => !(bl.isPrefixOf pf.1)),
      pf.1.dropLast = op ∧ pf.1 ≠ op := by
    intro pf hm
    have hm2 := List.mem_filter.mp hm
    have hc := hextra pf hm2.1
    rcases hc.1 with hcb | hco
    · exfalso
      have := dropLast_eq_imp_pref pf.1 bl hcb hc.2.1
      rw [this] at hm2
      simpa using hm2.2
    · exact ⟨hco, hc.2.2⟩
  have hd1 : (fsR.rmtree bl).dirs
      = fs0.dirs ++ (if created then [op] else []) := by
    unfold FS.rmtree
    rw [hdirs, List.filter_append, filter_dirs_not_prefix_eq_self fs0.dirs bl h2]
    cases created
    · simp [isPrefixOf_self]
    · simp [isPrefixOf_self, hbo]
  have hop_in : (fsR.rmtree bl).isDir op = true := by
    rw [isDir_true_iff, hd1]
    cases hcr : created
    · simp [hopdir hcr]
    · simp
  have hnofile : FS.isFile ⟨fs0.files, fs0.dirs⟩ bl = false := by
    rw [isFile_mk, List.any_eq_false]
    intro pf hm
    have := (h1 pf hm).1
    simp only [beq_iff_eq]
    intro hcon
    rw [hcon, isPrefixOf_self] at this
    cases this
  cases hcr : created
  · -- pre-existing output directory: unlink its direct children
    have hclean : (fsR.rmtree bl).cleanOutDir op
        = Except.ok ⟨fs0.files, fs0.dirs⟩ := by
      unfold FS.cleanOutDir
      have hnochild : ((fsR.rmtree bl).dirs.any
          (fun q => (childName op q).isSome)) = false := by
        rw [hd1, hcr]
        simp only [if_neg Bool.false_ne_true, List.append_nil]
        rw [List.any_eq_false]
        intro d hm
        cases hcn : childName op d with
        | none => simp
        | some n =>
          exfalso
          have hdn := childName_some_facts op d n hcn
          refine h3 d hm ⟨?_, ?_⟩
          · rw [hdn]; exact prefix_concat_self op n
          · rw [hdn]; exact concat_ne_self op n
      rw [if_neg (by simp [hnochild])]
      have hfilter : (fsR.rmtree bl).files.filter
          (fun pf => (childName op pf.1).isNone) = fs0.files := by
        rw [hf1, List.filter_append]
        have hfs0 : fs0.files.filter (fun pf => (childName op pf.1).isNone)
            = fs0.files := by
          rw [List.filter_eq_self]
          intro pf hm
          rw [childName_none_of_no_pref op pf.1 (h1 pf hm).2]
          rfl
        have hex : (extra.filter (fun pf => !(bl.isPrefixOf pf.1))).filter
            (fun pf => (childName op pf.1).isNone) = [] := by
          rw [List.filter_eq_nil_iff]
          intro pf hm
          have hc := hextra1 pf hm
          rw [dropLast_eq_imp_concat pf.1 op hc.1 hc.2, childName_concat]
          simp
        rw [hfs0, hex, List.append_nil]
      have hdd : (fsR.rmtree bl).dirs = fs0.dirs := by
        rw [hd1, hcr]; simp
      rw [hfilter, hdd]
    rw [rollback, if_pos hbl_in, if_pos hop_in]
    rw [if_neg Bool.false_ne_true, hclean]
    show (⟨if FS.isFile ⟨fs0.files, fs0.dirs⟩ bl = true
        then FS.removeFile ⟨fs0.files, fs0.dirs⟩ bl
        else ⟨fs0.files, fs0.dirs⟩, Except.error e⟩ : MigResult)
      = ⟨fs0, Except.error e⟩
    rw [if_neg (by simp [hnofile])]
  · -- the run created the output directory: remove it wholesale
    have hrm : (fsR.rmtree bl).rmtree op = (⟨fs0.files, fs0.dirs⟩ : FS) := by
      have hff : ((fsR.rmtree bl).files.filter (fun pf => !(op.isPrefixOf pf.1)))
          = fs0.files := by
        rw [hf1, List.filter_append,
          filter_not_prefix_eq_self fs0.files op (fun pf hm => (h1 pf hm).2)]
        have : (extra.filter (fun pf => !(bl.isPrefixOf pf.1))).filter
            (fun pf => !(op.isPrefixOf pf.1)) = [] := by
          rw [List.filter_eq_nil_iff]
          intro pf hm
          have hc := hextra1 pf hm
          rw [dropLast_eq_imp_concat pf.1 op hc.1 hc.2, prefix_concat_self]
          simp
        rw [this, List.append_nil]
      have hdd : ((fsR.rmtree bl).dirs.filter (fun d => !(op.isPrefixOf d)))
          = fs0.dirs := by
        rw [hd1, hcr]
        simp only [if_pos rfl]
        rw [List.filter_append]
        have hfs0 : fs0.dirs.filter (fun d => !(op.isPrefixOf d)) = fs0.dirs := by
          rw [List.filter_eq_self]
          intro d hm
          by_cases hdo : op.isPrefixOf d = true
          · by_cases hdeq : d = op
            · exfalso; exact (hopnotdir hcr) (hdeq ▸ hm)
            · exact absurd ⟨hdo, hdeq⟩ (h3 d hm)
          · simp only [Bool.not_eq_true] at hdo
            simp [hdo]
        rw [hfs0]
        simp [isPrefixOf_self]
      refine FS_eq_of _ _ ?_ ?_
      · rw [rmtree_files]
        exact hff
      · rw [rmtree_dirs]
        exact hdd
    rw [rollback, if_pos hbl_in, if_pos hop_in, if_pos rfl, hrm]
    show (⟨if FS.isFile ⟨fs0.files, fs0.dirs⟩ bl = true
        then FS.removeFile ⟨fs0.files, fs0.dirs⟩ bl
        else ⟨fs0.files, fs0.dirs⟩, Except.error e⟩ : MigResult)
      = ⟨fs0, Except.error e⟩
    rw [if_neg (by simp [hnofile])]

theorem rollback_noop (fs : FS) (bl op : FPath) (c : Bool) (e : MigErr)
    (hb : fs.isDir bl = false) (ho : fs.isDir op = false)
    (hf : fs.isFile bl = false) :
    rollback fs bl op c e = ⟨fs, Except.error e⟩ := by
  rw [rollback, if_neg (by simp [hb, ho]), if_neg (by simp [hb, ho])]
  show (⟨if fs.isFile bl = true then fs.removeFile bl else fs,
      Except.error e⟩ : MigResult) = ⟨fs, Except.error e⟩
  rw [if_neg (by simp [hf])]

theorem pathPrefixes_split (p : FPath) (hne : p ≠ []) :
    pathPrefixes p
      = ((List.range (p.length - 1)).map (fun i => p.take (i + 1))) ++ [p] := by
  unfold pathPrefixes
  cases hl : p.length with
  | zero =>
    exfalso
    exact hne (List.length_eq_zero.mp hl)
  | succ m =>
    rw [List.range_succ, List.map_append]
    simp only [List.map_cons, List.map_nil, Nat.succ_sub_one]
    have : p.take (m + 1) = p := by
      rw [← hl]
      simp
    rw [this]

theorem mem_pathPrefixes_short (p : FPath) (q : FPath)
    (h : q ∈ (List.range (p.length - 1)).map (fun i => p.take (i + 1)))
    (hne : p ≠ []) : q ≠ p ∧ q ∈ pathPrefixes p := by
  rcases List.mem_map.mp h with ⟨i, hi, rfl⟩
  have him := List.mem_range.mp hi
  constructor
  · intro hcon
    have hlen := congrArg List.length hcon
    rw [List.length_take] at hlen
    have hp : 0 < p.length := List.length_pos.mpr hne
    omega
  · rw [pathPrefixes_split p hne]
    exact List.mem_append.mpr (Or.inl h)

theorem mkdirParents_ok_of (fs : FS) (op : FPath)
    (hne : fs.pathExists op = false)
    (hq : ∀ q ∈ pathPrefixes op, q = op ∨ fs.isDir q = true)
    (hdisj : ∀ d ∈ fs.dirs, fs.isFile d = false)
    (hopnil : op ≠ []) :
    fs.mkdirParents op = Except.ok ⟨fs.files, fs.dirs ++ [op]⟩ := by
  have hnotdir : fs.isDir op = false := by
    unfold FS.pathExists at hne
    rcases Bool.or_eq_false_iff.mp hne with ⟨_, h2⟩
    exact h2
  have hnotfile : fs.isFile op = false := by
    unfold FS.pathExists at hne
    rcases Bool.or_eq_false_iff.mp hne with ⟨h1, _⟩
    exact h1
  unfold FS.mkdirParents
  rw [if_neg (by simp [hne])]
  have hnofiles : ((pathPrefixes op).any (fun q => fs.isFile q)) = false := by
    rw [List.any_eq_false]
    intro q hm
    rcases hq q hm with hqo | hqd
    · rw [hqo]; simp [hnotfile]
    · simp [hdisj q ((isDir_true_iff fs q).mp hqd)]
  rw [if_neg (by simp [hnofiles])]
  have hfilter : (pathPrefixes op).filter (fun q => !(fs.isDir q)) = [op] := by
    rw [pathPrefixes_split op hopnil, List.filter_append]
    have h1 : ((List.range (op.length - 1)).map
        (fun i => op.take (i + 1))).filter (fun q => !(fs.isDir q)) = [] := by
      rw [List.filter_eq_nil_iff]
      intro q hm
      have hmem := mem_pathPrefixes_short op q hm hopnil
      rcases hq q hmem.2 with hqo | hqd
      · exact absurd hqo hmem.1
      · simp [hqd]
    rw [h1]
    simp [hnotdir]
  rw [hfilter]

theorem setFile_isFile_mono (fs : FS) (p q : FPath) (fd : FileData)
    (h : fs.isFile q = true) : (fs.setFile p fd).isFile q = true := by
  unfold FS.setFile
  by_cases hex : fs.isFile p = true
  · rw [if_pos (by unfold FS.isFile at hex ⊢; exact hex)]
    rw [isFile_eq_any] at h ⊢
    simp only [List.any_map]
    rw [List.any_eq_true] at h ⊢
    rcases h with ⟨pf, hm, hp⟩
    refine ⟨pf, hm, ?_⟩
    simp only [Function.comp]
    by_cases he : (pf.1 == p) = true
    · have h1 : pf.1 = q := by simpa using hp
      have h2 : pf.1 = p := by simpa using he
      simp [he, ← h1, h2]
    · simp only [he]
      simpa using hp
  · rw [if_neg hex]
    rw [isFile_eq_any] at h ⊢
    simp only [List.any_append]
    rw [h]
    rfl

theorem setFile_isFile_self (fs : FS) (p : FPath) (fd : FileData) :
    (fs.setFile p fd).isFile p = true := by
  unfold FS.setFile
  by_cases hex : fs.isFile p = true
  · rw [if_pos (by unfold FS.isFile at hex ⊢; exact hex)]
    rw [isFile_eq_any]
    rw [isFile_eq_any] at hex
    rw [List.any_eq_true] at hex
    rcases hex with ⟨pf, hm, hp⟩
    rw [List.any_map, List.any_eq_true]
    refine ⟨pf, hm, ?_⟩
    simp only [Function.comp]
    simp [hp]
  · rw [if_neg hex]
    rw [isFile_eq_any, List.any_append]
    simp

theorem wfdLoop_ok_outputs (dp op : FPath) (nf : List (String × MigratedForm))
    (ns : List (String × SlotProps)) :
    ∀ (names : List String) (fs fsF : FS),
      wfdLoop dp op nf ns fs names = Except.ok fsF →
      ((∀ n ∈ names, fsF.isFile (op ++ [n]) = true)
        ∧ ∀ q, fs.isFile q = true → fsF.isFile q = true) := by
  intro names
  induction names with
  | nil =>
    intro fs fsF h
    rw [wfdLoop] at h
    cases h
    exact ⟨by simp, fun q hq => hq⟩
  | cons n rest ih =>
    intro fs fsF h
    rw [wfdLoop] at h
    cases hr : readYamlFile fs (dp ++ [n]) with
    | error e => rw [hr] at h; cases h
    | ok content =>
      rw [hr] at h
      dsimp only at h
      cases hw : writeYaml fs (op ++ [n]) (assemble_new_domain content nf ns) with
      | error e => rw [hw] at h; cases h
      | ok fs1 =>
        rw [hw] at h
        have hw2 := writeYaml_ok _ _ _ _ hw
        have hrec := ih fs1 fsF h
        refine ⟨?_, ?_⟩
        · intro m hm
          rcases List.mem_cons.mp hm with rfl | hm2
          · refine hrec.2 (op ++ [m]) ?_
            rw [hw2.1]
            exact setFile_isFile_self fs (op ++ [m]) _
          · exact hrec.1 m hm2
        · intro q hq
          refine hrec.2 q ?_
          rw [hw2.1]
          exact setFile_isFile_mono fs (op ++ [n]) q _ hq

theorem childName_concat_ne (d x : FPath) (n : String) (h : x ≠ d) :
    childName d (x ++ [n]) = none := by
  unfold childName
  rw [List.getLast?_concat]
  dsimp only
  rw [if_neg (by simpa [List.dropLast_concat] using h)]

theorem domainFileNames_extra (fs0 fs : FS) (bl op dp : FPath)
    (hEx : ExtraOnly bl op fs0 fs) (hbl : bl ≠ dp) (hop : op ≠ dp) :
    fs.domainFileNames dp = fs0.domainFileNames dp := by
  obtain ⟨hd, extra, hf, hextra⟩ := hEx
  unfold FS.domainFileNames
  rw [hf, List.filterMap_append]
  have hnil : extra.filterMap (fun pf =>
      match childName dp pf.1 with
      | some n => if pf.2.isDomain then some n else none
      | none => none) = [] := by
    rw [List.filterMap_eq_nil_iff]
    intro pf hm
    have hc := hextra pf hm
    have hcn : childName dp pf.1 = none := by
      rcases hc.1 with hcb | hco
      · rw [dropLast_eq_imp_concat pf.1 bl hcb hc.2.1]
        exact childName_concat_ne dp bl _ hbl
      · rw [dropLast_eq_imp_concat pf.1 op hco hc.2.2]
        exact childName_concat_ne dp op _ hop
    rw [hcn]
  rw [hnil, List.append_nil]

theorem composite_extra_err (dp bl op : FPath) (fs2 : FS) (e : MigErr) (fsR : FS)
    (hbo : bl.isPrefixOf op = false) (hob : op.isPrefixOf bl = false)
    (hclean : ∀ pf ∈ fs2.files,
      bl.isPrefixOf pf.1 = false ∧ op.isPrefixOf pf.1 = false)
    (hm : migrate_domain_files fs2 dp bl op = Except.error (e, fsR)) :
    ExtraOnly bl op fs2 fsR := by
  unfold migrate_domain_files at hm
  by_cases hemp : (fs2.domainFileNames dp).isEmpty = true
  · rw [if_pos hemp] at hm
    cases hm
    exact ExtraOnly_refl bl op fs2
  · rw [if_neg hemp] at hm
    have hinv := mdfLoop_extra dp bl op fs2 hbo hob hclean
      (fs2.domainFileNames dp) fs2 [] [] [] (ExtraOnly_refl bl op fs2)
    rw [hm] at hinv
    simpa [exceptFS] using hinv

theorem composite_extra_ok (dp bl op : FPath) (fs2 : FS) (od : Doc) (fs3 : FS)
    (hbo : bl.isPrefixOf op = false) (hob : op.isPrefixOf bl = false)
    (hclean : ∀ pf ∈ fs2.files,
      bl.isPrefixOf pf.1 = false ∧ op.isPrefixOf pf.1 = false)
    (hm : migrate_domain_files fs2 dp bl op = Except.ok (od, fs3)) :
    ExtraOnly bl op fs2 fs3 := by
  unfold migrate_domain_files at hm
  by_cases hemp : (fs2.domainFileNames dp).isEmpty = true
  · rw [if_pos hemp] at hm; cases hm
  · rw [if_neg hemp] at hm
    have hinv := mdfLoop_extra dp bl op fs2 hbo hob hclean
      (fs2.domainFileNames dp) fs2 [] [] [] (ExtraOnly_refl bl op fs2)
    rw [hm] at hinv
    simpa [exceptFS] using hinv

theorem transformAndWrite_extra (dp bl op : FPath) (fs2 fs3 : FS) (od : Doc)
    (e : MigErr) (fsR : FS)
    (hbo : bl.isPrefixOf op = false) (hob : op.isPrefixOf bl = false)
    (hclean : ∀ pf ∈ fs2.files,
      bl.isPrefixOf pf.1 = false ∧ op.isPrefixOf pf.1 = false)
    (hEx3 : ExtraOnly bl op fs2 fs3)
    (hdp3 : fs3.isDir dp = true)
    (hw : transformAndWrite fs3 dp od op = Except.error (e, fsR)) :
    ExtraOnly bl op fs2 fsR := by
  have hwfd := write_final_domain_extra dp op bl (migrate_form_slots od).1
    (migrate_auto_fill_and_custom_slots od (migrate_form_slots od).2).1
    fs2 fs3 hbo hob hclean hEx3 hdp3
  unfold transformAndWrite at hw
  rw [hw] at hwfd
  simpa [exceptFSOnly] using hwfd

theorem isFile_false_of_clean (fs : FS) (r : FPath)
    (h : ∀ pf ∈ fs.files, r.isPrefixOf pf.1 = false) : fs.isFile r = false := by
  rw [isFile_eq_any, List.any_eq_false]
  intro pf hm
  simp only [beq_iff_eq]
  intro hcon
  have := h pf hm
  rw [hcon, isPrefixOf_self] at this
  cases this

theorem not_mem_dirs_of_clean (l : List FPath) (r : FPath)
    (h : ∀ d ∈ l, r.isPrefixOf d = false) : r ∉ l := by
  intro hm
  have := h r hm
  rw [isPrefixOf_self] at this
  cases this

theorem isDir_false_of_not_mem (fs : FS) (r : FPath) (h : r ∉ fs.dirs) :
    fs.isDir r = false := by
  have : ¬(fs.isDir r = true) := fun hc => h ((isDir_true_iff fs r).mp hc)
  simpa using this

theorem tryPhase_dir_error (fs0 : FS) (dp bl op : FPath) (e : MigErr) (fsR : FS)
    (created : Bool)
    (h1 : ∀ pf ∈ fs0.files, bl.isPrefixOf pf.1 = false ∧ op.isPrefixOf pf.1 = false)
    (h2 : ∀ d ∈ fs0.dirs, bl.isPrefixOf d = false)
    (h3 : ∀ d ∈ fs0.dirs, ¬(op.isPrefixOf d = true ∧ d ≠ op))
    (hbo : bl.isPrefixOf op = false) (hob : op.isPrefixOf bl = false)
    (hdisj : ∀ d ∈ fs0.dirs, fs0.isFile d = false)
    (hq : ∀ q ∈ pathPrefixes op, q = op ∨ fs0.isDir q = true)
    (hparent : fs0.isDir bl.dropLast = true)
    (hopnil : op ≠ [])
    (hdp : dp ∈ fs0.dirs)
    (h : tryPhase fs0 dp bl op false = (Except.error (e, fsR), created)) :
    rollback fsR bl op created e = ⟨fs0, Except.error e⟩ := by
  have hblfile : fs0.isFile bl = false :=
    isFile_false_of_clean fs0 bl (fun pf hm => (h1 pf hm).1)
  have hbldir : fs0.isDir bl = false :=
    isDir_false_of_not_mem fs0 bl (not_mem_dirs_of_clean fs0.dirs bl h2)
  have hblex : fs0.pathExists bl = false := by
    unfold FS.pathExists
    rw [hblfile, hbldir]
    rfl
  have hne_blop : bl ≠ op := by
    intro hc
    rw [hc, isPrefixOf_self] at hbo
    cases hbo
  rw [tryPhase] at h
  rw [if_neg (by decide)] at h
  by_cases hod : fs0.isDir op = true
  · rw [if_neg (by simp [hod])] at h
    dsimp only at h
    have hplain := mkdirPlain_ok_of fs0 bl hblex hparent
    rw [hplain] at h
    dsimp only at h
    rw [Prod.mk.injEq] at h
    obtain ⟨hX, hc⟩ := h
    subst hc
    have hdp2 : FS.isDir ⟨fs0.files, fs0.dirs ++ [bl]⟩ dp = true := by
      rw [isDir_true_iff]
      exact List.mem_append.mpr (Or.inl hdp)
    have hEx : ExtraOnly bl op (⟨fs0.files, fs0.dirs ++ [bl]⟩ : FS) fsR := by
      cases hmm : migrate_domain_files ⟨fs0.files, fs0.dirs ++ [bl]⟩ dp bl op with
      | error efs =>
        rw [hmm] at hX
        dsimp only at hX
        cases hX
        exact composite_extra_err dp bl op (⟨fs0.files, fs0.dirs ++ [bl]⟩ : FS) e fsR hbo hob
          (fun pf hm => h1 pf hm) hmm
      | ok pair =>
        rcases pair with ⟨od, fs3⟩
        rw [hmm] at hX
        dsimp only at hX
        have hEx3 := composite_extra_ok dp bl op (⟨fs0.files, fs0.dirs ++ [bl]⟩ : FS) od fs3 hbo hob
          (fun pf hm => h1 pf hm) hmm
        have hdp3 : fs3.isDir dp = true := by
          rw [isDir_true_iff, hEx3.1]
          exact (isDir_true_iff _ dp).mp hdp2
        exact transformAndWrite_extra dp bl op (⟨fs0.files, fs0.dirs ++ [bl]⟩ : FS) fs3 od e fsR hbo hob
          (fun pf hm => h1 pf hm) hEx3 hdp3 hX
    refine rollback_restores fs0 fsR bl op false e h1 h2 h3 hbo ?_ ?_ ?_ ?_
    · rw [hEx.1]
      simp
    · intro _
      exact (isDir_true_iff fs0 op).mp hod
    · intro hcc
      cases hcc
    · obtain ⟨hd, extra, hf, hextra⟩ := hEx
      exact ⟨extra, hf, hextra⟩
  · have hodf : fs0.isDir op = false := by simpa using hod
    rw [if_pos (by simp [hodf])] at h
    have hopex : fs0.pathExists op = false := by
      unfold FS.pathExists
      rw [isFile_false_of_clean fs0 op (fun pf hm => (h1 pf hm).2), hodf]
      rfl
    have hparents := mkdirParents_ok_of fs0 op hopex hq hdisj hopnil
    rw [hparents] at h
    dsimp only at h
    have hblex2 : FS.pathExists ⟨fs0.files, fs0.dirs ++ [op]⟩ bl = false := by
      unfold FS.pathExists
      have hf2 : FS.isFile ⟨fs0.files, fs0.dirs ++ [op]⟩ bl = false := by
        rw [isFile_mk]
        rw [isFile_eq_any] at hblfile
        exact hblfile
      have hd2 : FS.isDir ⟨fs0.files, fs0.dirs ++ [op]⟩ bl = false := by
        refine isDir_false_of_not_mem _ bl ?_
        rw [List.mem_append]
        rintro (hm | hm)
        · exact not_mem_dirs_of_clean fs0.dirs bl h2 hm
        · simp only [List.mem_singleton] at hm
          exact hne_blop hm
      rw [hf2, hd2]
      rfl
    have hparent2 : FS.isDir ⟨fs0.files, fs0.dirs ++ [op]⟩ bl.dropLast = true := by
      rw [isDir_true_iff]
      rw [isDir_true_iff] at hparent
      exact List.mem_append.mpr (Or.inl hparent)
    have hplain := mkdirPlain_ok_of ⟨fs0.files, fs0.dirs ++ [op]⟩ bl hblex2 hparent2
    rw [hplain] at h
    dsimp only at h
    rw [Prod.mk.injEq] at h
    obtain ⟨hX, hc⟩ := h
    subst hc
    have hdp2 : FS.isDir ⟨fs0.files, fs0.dirs ++ [op] ++ [bl]⟩ dp = true := by
      rw [isDir_true_iff]
      exact List.mem_append.mpr (Or.inl (List.mem_append.mpr (Or.inl hdp)))
    have hEx : ExtraOnly bl op (⟨fs0.files, fs0.dirs ++ [op] ++ [bl]⟩ : FS) fsR := by
      cases hmm : migrate_domain_files ⟨fs0.files, fs0.dirs ++ [op] ++ [bl]⟩ dp bl op with
      | error efs =>
        rw [hmm] at hX
        dsimp only at hX
        cases hX
        exact composite_extra_err dp bl op (⟨fs0.files, fs0.dirs ++ [op] ++ [bl]⟩ : FS) e fsR hbo hob
          (fun pf hm => h1 pf hm) hmm
      | ok pair =>
        rcases pair with ⟨od, fs3⟩
        rw [hmm] at hX
        dsimp only at hX
        have hEx3 := composite_extra_ok dp bl op (⟨fs0.files, fs0.dirs ++ [op] ++ [bl]⟩ : FS) od fs3 hbo hob
          (fun pf hm => h1 pf hm) hmm
        have hdp3 : fs3.isDir dp = true := by
          rw [isDir_true_iff, hEx3.1]
          exact (isDir_true_iff _ dp).mp hdp2
        exact transformAndWrite_extra dp bl op (⟨fs0.files, fs0.dirs ++ [op] ++ [bl]⟩ : FS) fs3 od e fsR hbo hob
          (fun pf hm => h1 pf hm) hEx3 hdp3 hX
    refine rollback_restores fs0 fsR bl op true e h1 h2 h3 hbo ?_ ?_ ?_ ?_
    · rw [hEx.1]
      simp
    · intro hcc
      cases hcc
    · intro _ hm
      have := (isDir_true_iff fs0 op).mpr hm
      rw [this] at hodf
      cases hodf
    · obtain ⟨hd, extra, hf, hextra⟩ := hEx
      exact ⟨extra, hf, hextra⟩

theorem domainFileNames_mk_files (fs0 : FS) (ds : List FPath) (dp : FPath) :
    FS.domainFileNames ⟨fs0.files, ds⟩ dp = fs0.domainFileNames dp := rfl

theorem tryPhase_dir_ok (fs0 : FS) (dp bl op : FPath) (fsF : FS) (c : Bool)
    (h1 : ∀ pf ∈ fs0.files, bl.isPrefixOf pf.1 = false ∧ op.isPrefixOf pf.1 = false)
    (h2 : ∀ d ∈ fs0.dirs, bl.isPrefixOf d = false)
    (hbo : bl.isPrefixOf op = false) (hob : op.isPrefixOf bl = false)
    (hdisj : ∀ d ∈ fs0.dirs, fs0.isFile d = false)
    (hq : ∀ q ∈ pathPrefixes op, q = op ∨ fs0.isDir q = true)
    (hparent : fs0.isDir bl.dropLast = true)
    (hopnil : op ≠ [])
    (hdp : dp ∈ fs0.dirs)
    (hbldp : bl ≠ dp) (hopdp : op ≠ dp)
    (h : tryPhase fs0 dp bl op false = (Except.ok fsF, c)) :
    fsF.isDir bl = true ∧ fsF.isDir op = true
      ∧ ∀ n ∈ fs0.domainFileNames dp, fsF.isFile (op ++ [n]) = true := by
  have hblfile : fs0.isFile bl = false :=
    isFile_false_of_clean fs0 bl (fun pf hm => (h1 pf hm).1)
  have hbldir : fs0.isDir bl = false :=
    isDir_false_of_not_mem fs0 bl (not_mem_dirs_of_clean fs0.dirs bl h2)
  have hblex : fs0.pathExists bl = false := by
    unfold FS.pathExists
    rw [hblfile, hbldir]
    rfl
  have hne_blop : bl ≠ op := by
    intro hc
    rw [hc, isPrefixOf_self] at hbo
    cases hbo
  rw [tryPhase] at h
  rw [if_neg (by decide)] at h
  have main : ∀ (base : FS) (od : Doc) (fs3 : FS), base.files = fs0.files →
      bl ∈ base.dirs → op ∈ base.dirs → dp ∈ base.dirs →
      migrate_domain_files base dp bl op = Except.ok (od, fs3) →
      transformAndWrite fs3 dp od op = Except.ok fsF →
      fsF.isDir bl = true ∧ fsF.isDir op = true
        ∧ ∀ n ∈ fs0.domainFileNames dp, fsF.isFile (op ++ [n]) = true := by
    intro base od fs3 hbf hblb hopb hdpb hmm hX
    have hcleanb : ∀ pf ∈ base.files,
        bl.isPrefixOf pf.1 = false ∧ op.isPrefixOf pf.1 = false := by
      rw [hbf]
      exact h1
    · have hEx3 := composite_extra_ok dp bl op base od fs3 hbo hob hcleanb hmm
      have hdp3 : fs3.isDir dp = true := by
        rw [isDir_true_iff, hEx3.1]
        exact hdpb
      unfold transformAndWrite at hX
      rw [write_final_domain, if_pos hdp3] at hX
      have hnames : fs3.domainFileNames dp = fs0.domainFileNames dp := by
        rw [domainFileNames_extra base fs3 bl op dp hEx3 hbldp hopdp]
        cases base with
        | mk bfl bds =>
          simp only at hbf
          rw [show (⟨bfl, bds⟩ : FS).domainFileNames dp
            = FS.domainFileNames ⟨fs0.files, bds⟩ dp from by rw [← hbf]]
          exact domainFileNames_mk_files fs0 bds dp
      rw [hnames] at hX
      have houts := wfdLoop_ok_outputs dp op _ _ (fs0.domainFileNames dp) fs3 fsF hX
      have hEps := wfdLoop_extra dp op bl (migrate_form_slots od).1
        (migrate_auto_fill_and_custom_slots od (migrate_form_slots od).2).1
        base hbo hob hcleanb (fs3.domainFileNames dp) fs3 hEx3
      rw [hnames, hX] at hEps
      have hEpsF : ExtraOnly bl op base fsF := by simpa [exceptFSOnly] using hEps
      refine ⟨?_, ?_, houts.1⟩
      · rw [isDir_true_iff, hEpsF.1]
        exact hblb
      · rw [isDir_true_iff, hEpsF.1]
        exact hopb
  by_cases hod : fs0.isDir op = true
  · rw [if_neg (by simp [hod])] at h
    dsimp only at h
    have hplain := mkdirPlain_ok_of fs0 bl hblex hparent
    rw [hplain] at h
    dsimp only at h
    rw [Prod.mk.injEq] at h
    obtain ⟨hX, hc⟩ := h
    cases hmm : migrate_domain_files ⟨fs0.files, fs0.dirs ++ [bl]⟩ dp bl op with
    | error efs =>
      rw [hmm] at hX
      dsimp only at hX
      cases hX
    | ok pair =>
      rcases pair with ⟨od, fs3⟩
      rw [hmm] at hX
      dsimp only at hX
      refine main ⟨fs0.files, fs0.dirs ++ [bl]⟩ od fs3 rfl ?_ ?_ ?_ hmm hX
      · simp
      · exact List.mem_append.mpr (Or.inl ((isDir_true_iff fs0 op).mp hod))
      · exact List.mem_append.mpr (Or.inl hdp)
  · have hodf : fs0.isDir op = false := by simpa using hod
    rw [if_pos (by simp [hodf])] at h
    have hopex : fs0.pathExists op = false := by
      unfold FS.pathExists
      rw [isFile_false_of_clean fs0 op (fun pf hm => (h1 pf hm).2), hodf]
      rfl
    have hparents := mkdirParents_ok_of fs0 op hopex hq hdisj hopnil
    rw [hparents] at h
    dsimp only at h
    have hblex2 : FS.pathExists ⟨fs0.files, fs0.dirs ++ [op]⟩ bl = false := by
      unfold FS.pathExists
      have hf2 : FS.isFile ⟨fs0.files, fs0.dirs ++ [op]⟩ bl = false := by
        rw [isFile_mk]
        rw [isFile_eq_any] at hblfile
        exact hblfile
      have hd2 : FS.isDir ⟨fs0.files, fs0.dirs ++ [op]⟩ bl = false := by
        refine isDir_false_of_not_mem _ bl ?_
        rw [List.mem_append]
        rintro (hm | hm)
        · exact not_mem_dirs_of_clean fs0.dirs bl h2 hm
        · simp only [List.mem_singleton] at hm
          exact hne_blop hm
      rw [hf2, hd2]
      rfl
    have hparent2 : FS.isDir ⟨fs0.files, fs0.dirs ++ [op]⟩ bl.dropLast = true := by
      rw [isDir_true_iff]
      rw [isDir_true_iff] at hparent
      exact List.mem_append.mpr (Or.inl hparent)
    have hplain := mkdirPlain_ok_of ⟨fs0.files, fs0.dirs ++ [op]⟩ bl hblex2 hparent2
    rw [hplain] at h
    dsimp only at h
    rw [Prod.mk.injEq] at h
    obtain ⟨hX, hc⟩ := h
    cases hmm : migrate_domain_files ⟨fs0.files, fs0.dirs ++ [op] ++ [bl]⟩ dp bl op with
    | error efs =>
      rw [hmm] at hX
      dsimp only at hX
      cases hX
    | ok pair =>
      rcases pair with ⟨od, fs3⟩
      rw [hmm] at hX
      dsimp only at hX
      refine main ⟨fs0.files, fs0.dirs ++ [op] ++ [bl]⟩ od fs3 rfl ?_ ?_ ?_ hmm hX
      · simp
      · simp
      · exact List.mem_append.mpr (Or.inl (List.mem_append.mpr (Or.inl hdp)))

theorem rollback_unlink (fs0 : FS) (bl op : FPath) (c : Bool) (e : MigErr)
    (fd : FileData)
    (hbldir : fs0.isDir bl = false) (hopdir : fs0.isDir op = false)
    (hblfile : fs0.isFile bl = false)
    (hclean : ∀ pf ∈ fs0.files, pf.1 ≠ bl) :
    rollback (fs0.setFile bl fd) bl op c e = ⟨fs0, Except.error e⟩ := by
  rw [setFile_fresh fs0 bl fd hblfile]
  have hd1 : FS.isDir ⟨fs0.files ++ [(bl, fd)], fs0.dirs⟩ bl = false := hbldir
  have hd2 : FS.isDir ⟨fs0.files ++ [(bl, fd)], fs0.dirs⟩ op = false := hopdir
  rw [rollback, if_neg (by simp [hd1, hd2]), if_neg (by simp [hd1, hd2])]
  have hf1 : FS.isFile ⟨fs0.files ++ [(bl, fd)], fs0.dirs⟩ bl = true := by
    rw [isFile_mk, List.any_append]
    simp
  show (⟨if FS.isFile ⟨fs0.files ++ [(bl, fd)], fs0.dirs⟩ bl = true
      then FS.removeFile ⟨fs0.files ++ [(bl, fd)], fs0.dirs⟩ bl
      else ⟨fs0.files ++ [(bl, fd)], fs0.dirs⟩, Except.error e⟩ : MigResult)
    = ⟨fs0, Except.error e⟩
  rw [if_pos hf1]
  unfold FS.removeFile
  have : (fs0.files ++ [(bl, fd)]).filter (fun pf => pf.1 != bl) = fs0.files := by
    rw [List.filter_append]
    have hk : fs0.files.filter (fun pf => pf.1 != bl) = fs0.files := by
      rw [List.filter_eq_self]
      intro pf hm
      simpa using hclean pf hm
    rw [hk]
    simp
  rw [MigResult.mk.injEq]
  constructor
  · rw [FS_eq_of ⟨(fs0.files ++ [(bl, fd)]).filter (fun pf => pf.1 != bl), fs0.dirs⟩
      fs0 this rfl]
  · rfl

theorem tryPhase_file_error (fs0 : FS) (dp bl op : FPath) (e : MigErr) (fsR : FS)
    (created : Bool)
    (hbldir : fs0.isDir bl = false)
    (hopdir : fs0.isDir op = false)
    (hblfile : fs0.isFile bl = false)
    (hclean : ∀ pf ∈ fs0.files, pf.1 ≠ bl)
    (hdpdir : fs0.isDir dp = false)
    (h : tryPhase fs0 dp bl op true = (Except.error (e, fsR), created)) :
    rollback fsR bl op created e = ⟨fs0, Except.error e⟩ := by
  rw [tryPhase] at h
  rw [if_pos (by decide)] at h
  rw [Prod.mk.injEq] at h
  obtain ⟨hX, hc⟩ := h
  subst hc
  by_cases hdom : fs0.isDomainFile dp = true
  · rw [if_neg (by simp [hdom])] at hX
    cases hcb : create_back_up fs0 dp bl with
    | error efs =>
      rw [hcb] at hX
      cases hX
      have := create_back_up_error_fs fs0 dp bl e fsR hcb
      rw [this]
      exact rollback_noop fs0 bl op false e hbldir hopdir hblfile
    | ok pair =>
      rcases pair with ⟨od, fs1⟩
      rw [hcb] at hX
      dsimp only at hX
      have hspec := create_back_up_ok fs0 dp bl od fs1 hcb
      have hdirs1 : fs1.dirs = fs0.dirs := by
        rw [hspec.2.1, setFile_fresh fs0 bl _ hblfile]
      have hdp1 : fs1.isDir dp = false := by
        unfold FS.isDir
        rw [hdirs1]
        exact hdpdir
      unfold transformAndWrite at hX
      rw [write_final_domain, if_neg (by simp [hdp1])] at hX
      cases hr : readYamlFile fs1 dp with
      | error e2 =>
        rw [hr] at hX
        cases hX
        rw [hspec.2.1]
        exact rollback_unlink fs0 bl op false _ _ hbldir hopdir hblfile hclean
      | ok content =>
        rw [hr] at hX
        dsimp only at hX
        cases hw : writeYaml fs1 op (assemble_new_domain content
            (migrate_form_slots od).1
            (migrate_auto_fill_and_custom_slots od (migrate_form_slots od).2).1) with
        | error e2 =>
          rw [hw] at hX
          cases hX
          rw [hspec.2.1]
          exact rollback_unlink fs0 bl op false _ _ hbldir hopdir hblfile hclean
        | ok fs2 =>
          rw [hw] at hX
          cases hX
  · rw [if_pos (by simp [hdom])] at hX
    cases hX
    exact rollback_noop fs0 bl op false _ hbldir hopdir hblfile

theorem tryPhase_file_ok (fs0 : FS) (dp bl op : FPath) (fsF : FS) (c : Bool)
    (hblfile : fs0.isFile bl = false)
    (hdpdir : fs0.isDir dp = false)
    (h : tryPhase fs0 dp bl op true = (Except.ok fsF, c)) :
    fsF.isFile bl = true ∧ fsF.isFile op = true := by
  rw [tryPhase] at h
  rw [if_pos (by decide)] at h
  rw [Prod.mk.injEq] at h
  obtain ⟨hX, hc⟩ := h
  by_cases hdom : fs0.isDomainFile dp = true
  · rw [if_neg (by simp [hdom])] at hX
    cases hcb : create_back_up fs0 dp bl with
    | error efs =>
      rw [hcb] at hX
      cases hX
    | ok pair =>
      rcases pair with ⟨od, fs1⟩
      rw [hcb] at hX
      dsimp only at hX
      have hspec := create_back_up_ok fs0 dp bl od fs1 hcb
      unfold transformAndWrite at hX
      rw [write_final_domain] at hX
      have hdirs1 : fs1.dirs = fs0.dirs := by
        rw [hspec.2.1, setFile_fresh fs0 bl _ hblfile]
      have hdp1 : fs1.isDir dp = false := by
        unfold FS.isDir
        rw [hdirs1]
        exact hdpdir
      · rw [if_neg (by simp [hdp1])] at hX
        cases hr : readYamlFile fs1 dp with
        | error e2 =>
          rw [hr] at hX
          cases hX
        | ok content =>
          rw [hr] at hX
          dsimp only at hX
          cases hw : writeYaml fs1 op (assemble_new_domain content
              (migrate_form_slots od).1
              (migrate_auto_fill_and_custom_slots od (migrate_form_slots od).2).1) with
          | error e2 =>
            rw [hw] at hX
            cases hX
          | ok fs2 =>
            rw [hw] at hX
            cases hX
            have hw2 := writeYaml_ok _ _ _ _ hw
            constructor
            · rw [hw2.1]
              refine setFile_isFile_mono fs1 op bl _ ?_
              rw [hspec.2.1]
              exact setFile_isFile_self fs0 bl _
            · rw [hw2.1]
              exact setFile_isFile_self fs1 op _
  · rw [if_pos (by simp [hdom])] at hX
    cases hX

theorem hasChildren_false_of (fs : FS) (op : FPath)
    (h5 : ∀ pf ∈ fs.files, op.isPrefixOf pf.1 = false)
    (h6 : ∀ d ∈ fs.dirs, ¬(op.isPrefixOf d = true ∧ d ≠ op)) :
    fs.hasChildren op = false := by
  unfold FS.hasChildren
  rw [Bool.or_eq_false_iff]
  constructor
  · rw [List.any_eq_false]
    intro pf hm
    rw [childName_none_of_no_pref op pf.1 (h5 pf hm)]
    simp
  · rw [List.any_eq_false]
    intro d hm
    cases hc : childName op d with
    | none => simp
    | some n =>
      exfalso
      have hd := childName_some_facts op d n hc
      refine h6 d hm ⟨?_, ?_⟩
      · rw [hd]
        exact prefix_concat_self op n
      · rw [hd]
        exact concat_ne_self op n

/-- **C2** (amended): under the `GoodSetup` preconditions — which in
particular require that in single-file mode the requested output path is not
a pre-existing directory — `migrate_domain_format` is atomic: every error
outcome leaves the filesystem exactly in its pre-run state, and a success
leaves the backup in place (`original_domain.yml` next to a single-file
input, the `original_domain` directory next to a directory input) together
with the fully written output (the output file, or the output directory
holding one migrated file per recognized domain file of the input
directory). -/
theorem migration_atomicity (fs0 : FS) (domainPath outPath : FPath)
    (hGS : GoodSetup fs0 domainPath outPath) :
    (∀ e, (migrate_domain_format fs0 domainPath (some outPath)).outcome
          = Except.error e →
        (migrate_domain_format fs0 domainPath (some outPath)).fs = fs0)
      ∧ ((migrate_domain_format fs0 domainPath (some outPath)).outcome
          = Except.ok () →
        if fs0.isFile domainPath then
          (migrate_domain_format fs0 domainPath (some outPath)).fs.isFile
              (domainPath.dropLast ++ ["original_domain.yml"]) = true
            ∧ (migrate_domain_format fs0 domainPath (some outPath)).fs.isFile
                outPath = true
        else
          (migrate_domain_format fs0 domainPath (some outPath)).fs.isDir
              (domainPath.dropLast ++ ["original_domain"]) = true
            ∧ (migrate_domain_format fs0 domainPath (some outPath)).fs.isDir
                outPath = true
            ∧ ∀ n ∈ fs0.domainFileNames domainPath,
                (migrate_domain_format fs0 domainPath (some outPath)).fs.isFile
                  (outPath ++ [n]) = true) := by
  unfold GoodSetup at hGS
  obtain ⟨g1, g2, g3, g4, g5, g6, g7, g8, g9, g10, g11, g12, g13, g14, g15, g16⟩
    := hGS
  unfold migrate_domain_format
  dsimp only
  by_cases hmfo : fs0.isFile domainPath = true
  · -- single-file mode
    rw [if_pos hmfo] at g3 g4 g11 g14 g15
    rw [if_pos hmfo, if_pos hmfo]
    rw [hmfo]
    have hblfile : fs0.isFile (domainPath.dropLast ++ ["original_domain.yml"])
        = false := isFile_false_of_clean fs0 _ g3
    have hbldir : fs0.isDir (domainPath.dropLast ++ ["original_domain.yml"])
        = false :=
      isDir_false_of_not_mem fs0 _ (not_mem_dirs_of_clean fs0.dirs _ g4)
    have hpe : fs0.pathExists (domainPath.dropLast ++ ["original_domain.yml"])
        = false := by
      unfold FS.pathExists
      rw [hblfile, hbldir]
      rfl
    rw [if_neg (by simp [hpe])]
    rw [if_neg (by simp)]
    have hopfile : fs0.isFile outPath = false := isFile_false_of_clean fs0 _ g5
    rw [if_neg (by simp [hopfile])]
    have hdpdir : fs0.isDir domainPath = false := by
      cases hdd : fs0.isDir domainPath
      · rfl
      · exfalso
        have hmem := (isDir_true_iff fs0 domainPath).mp hdd
        have hcontra := g2 domainPath hmem
        rw [hmfo] at hcontra
        cases hcontra
    rw [if_neg (by simp [hdpdir])]
    cases ham : anyAlreadyMigrated fs0 [domainPath] with
    | error e0 =>
      dsimp only
      exact ⟨fun e h => rfl, fun h => Except.noConfusion h⟩
    | ok migrated =>
      dsimp only
      cases migrated with
      | true =>
        rw [if_pos rfl]
        exact ⟨fun e h => rfl, fun h => Except.noConfusion h⟩
      | false =>
        rw [if_neg (by simp)]
        have hclean : ∀ pf ∈ fs0.files,
            pf.1 ≠ domainPath.dropLast ++ ["original_domain.yml"] := by
          intro pf hm he
          have hpre := g3 pf hm
          rw [he, isPrefixOf_self] at hpre
          cases hpre
        cases htp : tryPhase fs0 domainPath
            (domainPath.dropLast ++ ["original_domain.yml"]) outPath true with
        | mk res cr =>
          cases res with
          | error ef =>
            obtain ⟨e1, fsR⟩ := ef
            dsimp only
            rw [tryPhase_file_error fs0 domainPath _ outPath e1 fsR cr
              hbldir (g7 hmfo) hblfile hclean hdpdir htp]
            exact ⟨fun e h => rfl, fun h => Except.noConfusion h⟩
          | ok fsF =>
            dsimp only
            exact ⟨fun e h => Except.noConfusion h,
              fun _ => tryPhase_file_ok fs0 domainPath _ outPath fsF cr
                hblfile hdpdir htp⟩
  · -- directory mode
    have hmfo0 : fs0.isFile domainPath = false := by
      cases h : fs0.isFile domainPath
      · rfl
      · exact absurd h hmfo
    rw [if_neg hmfo] at g3 g4 g11 g14 g15
    rw [if_neg hmfo, if_neg hmfo]
    rw [hmfo0]
    have hblfile : fs0.isFile (domainPath.dropLast ++ ["original_domain"])
        = false := isFile_false_of_clean fs0 _ g3
    have hbldir : fs0.isDir (domainPath.dropLast ++ ["original_domain"])
        = false :=
      isDir_false_of_not_mem fs0 _ (not_mem_dirs_of_clean fs0.dirs _ g4)
    have hpe : fs0.pathExists (domainPath.dropLast ++ ["original_domain"])
        = false := by
      unfold FS.pathExists
      rw [hblfile, hbldir]
      rfl
    rw [if_neg (by simp [hpe])]
    have hch : fs0.hasChildren outPath = false :=
      hasChildren_false_of fs0 outPath g5 g6
    rw [if_neg (by simp [hch])]
    rw [if_neg (by simp)]
    by_cases hdd : fs0.isDir domainPath = true
    · rw [if_pos hdd]
      cases ham : anyAlreadyMigrated fs0
          ((fs0.domainFileNames domainPath).map (fun n => domainPath ++ [n])) with
      | error e0 =>
        dsimp only
        exact ⟨fun e h => rfl, fun h => Except.noConfusion h⟩
      | ok migrated =>
        dsimp only
        cases migrated with
        | true =>
          rw [if_pos rfl]
          exact ⟨fun e h => rfl, fun h => Except.noConfusion h⟩
        | false =>
          rw [if_neg (by simp)]
          have hdpmem : domainPath ∈ fs0.dirs :=
            (isDir_true_iff fs0 domainPath).mp hdd
          have h1 : ∀ pf ∈ fs0.files,
              (domainPath.dropLast ++ ["original_domain"]).isPrefixOf pf.1
                  = false
                ∧ outPath.isPrefixOf pf.1 = false :=
            fun pf hm => ⟨g3 pf hm, g5 pf hm⟩
          have hparent :
              fs0.isDir (domainPath.dropLast ++ ["original_domain"]).dropLast
                = true := by
            rw [List.dropLast_concat]
            exact (isDir_true_iff fs0 _).mpr g9
          have hbldp : domainPath.dropLast ++ ["original_domain"]
              ≠ domainPath := by
            intro he
            have hpre := g4 domainPath hdpmem
            rw [he, isPrefixOf_self] at hpre
            cases hpre
          cases htp : tryPhase fs0 domainPath
              (domainPath.dropLast ++ ["original_domain"]) outPath false with
          | mk res cr =>
            cases res with
            | error ef =>
              obtain ⟨e1, fsR⟩ := ef
              dsimp only
              rw [tryPhase_dir_error fs0 domainPath _ outPath e1 fsR cr
                h1 g4 g6 g15 g14 g2 g8 hparent g12 hdpmem htp]
              exact ⟨fun e h => rfl, fun h => Except.noConfusion h⟩
            | ok fsF =>
              dsimp only
              exact ⟨fun e h => Except.noConfusion h,
                fun _ => tryPhase_dir_ok fs0 domainPath _ outPath fsF cr
                  h1 g4 g15 g14 g2 g8 hparent g12 hdpmem hbldp g10 htp⟩
    · rw [if_neg hdd]
      have hlook : fs0.lookupFile domainPath = none := by
        cases hl : fs0.lookupFile domainPath with
        | none => rfl
        | some fd =>
          exfalso
          have hf : fs0.isFile domainPath = true := by
            unfold FS.isFile
            rw [hl]
            rfl
          rw [hf] at hmfo0
          cases hmfo0
      have ham : anyAlreadyMigrated fs0 [domainPath]
          = Except.error (MigErr.osError domainPath) := by
        unfold anyAlreadyMigrated readYamlFile
        rw [hlook]
      rw [ham]
      dsimp only
      exact ⟨fun e h => rfl, fun h => Except.noConfusion h⟩

theorem migration_atomicity_witness :
    GoodSetup fs2w ["d", "dom.yml"] ["d", "out.yml"]
      ∧ ((∀ e, (migrate_domain_format fs2w ["d", "dom.yml"]
              (some ["d", "out.yml"])).outcome = Except.error e →
          (migrate_domain_format fs2w ["d", "dom.yml"]
              (some ["d", "out.yml"])).fs = fs2w)
        ∧ ((migrate_domain_format fs2w ["d", "dom.yml"]
              (some ["d", "out.yml"])).outcome = Except.ok () →
          if fs2w.isFile ["d", "dom.yml"] then
            (migrate_domain_format fs2w ["d", "dom.yml"]
                (some ["d", "out.yml"])).fs.isFile
                (["d", "dom.yml"].dropLast ++ ["original_domain.yml"]) = true
              ∧ (migrate_domain_format fs2w ["d", "dom.yml"]
                  (some ["d", "out.yml"])).fs.isFile ["d", "out.yml"] = true
          else
            (migrate_domain_format fs2w ["d", "dom.yml"]
                (some ["d", "out.yml"])).fs.isDir
                (["d", "dom.yml"].dropLast ++ ["original_domain"]) = true
              ∧ (migrate_domain_format fs2w ["d", "dom.yml"]
                  (some ["d", "out.yml"])).fs.isDir ["d", "out.yml"] = true
              ∧ ∀ n ∈ fs2w.domainFileNames ["d", "dom.yml"],
                  (migrate_domain_format fs2w ["d", "dom.yml"]
                    (some ["d", "out.yml"])).fs.isFile
                    (["d", "out.yml"] ++ [n]) = true)) :=
  ⟨by decide, migration_atomicity fs2w ["d", "dom.yml"] ["d", "out.yml"]
    (by decide)⟩

/-- Counterexamples to the literal C2, one per failure mode outside the
amended preconditions. First: with a single-file input and an output path
that is a pre-existing directory containing an unrelated user file, the run
fails and the rollback deletes that pre-existing file. Second: with a
directory input and an output path whose ancestor directory is missing,
`mkdir(parents=True)` creates the ancestor and the failed run's rollback
removes only the output directory itself, leaving the created ancestor
behind. In both runs the resulting state is neither the pre-run state nor a
fully written output. -/
theorem migration_atomicity_cex :
    (fs2c.isFile ["p", "out", "victim.txt"] = true
      ∧ (migrate_domain_format fs2c ["p", "d.yml"]
            (some ["p", "out"])).outcome
          = Except.error (MigErr.osError ["p", "out"])
      ∧ (migrate_domain_format fs2c ["p", "d.yml"]
            (some ["p", "out"])).fs.isFile ["p", "out", "victim.txt"]
          = false)
    ∧ (fs2d.isDir ["p", "a"] = false
      ∧ (migrate_domain_format fs2d ["p", "dd"]
            (some ["p", "a", "out"])).outcome
          = Except.error (MigErr.rasa RasaKind.missingSlotsOrForms)
      ∧ (migrate_domain_format fs2d ["p", "dd"]
            (some ["p", "a", "out"])).fs.isDir ["p", "a"] = true) := by
  decide

/-- Counterexample to the literal C8: the duplicate-section test is a Python
truthiness test on the accumulated sections, so two documents both declaring
a `forms` section do not trigger the rejection when the first declared
section is empty — this run succeeds outright. -/
theorem duplicate_forms_cex :
    hasKey d1c8 KEY_FORMS = true
      ∧ hasKey d2c8 KEY_FORMS = true
      ∧ readYamlFile fs8c ["p", "dd", "a.yml"] = Except.ok d1c8
      ∧ readYamlFile fs8c ["p", "dd", "b.yml"] = Except.ok d2c8
      ∧ (migrate_domain_format fs8c ["p", "dd"] (some ["p", "out"])).outcome
          = Except.ok () := by
  decide

/-- Counterexample to the literal C9: a single-file input whose document has
neither `slots` nor `forms` migrates successfully — the missing-sections
check only exists on the directory path. -/
theorem missing_sections_cex :
    hasKey d9c KEY_SLOTS = false
      ∧ hasKey d9c KEY_FORMS = false
      ∧ fs9c.isFile ["p", "dom.yml"] = true
      ∧ (migrate_domain_format fs9c ["p", "dom.yml"]
            (some ["p", "out.yml"])).outcome = Except.ok () := by
  decide

theorem dictLookup_dictSet_ne {α : Type} (k k2 : String) (v : α)
    (hne : k ≠ k2) :
    ∀ (d : List (String × α)),
      dictLookup (dictSet d k v) k2 = dictLookup d k2 := by
  have hmap : ∀ (d : List (String × α)),
      dictLookup (d.map (fun kv => if kv.1 == k then (k, v) else kv)) k2
        = dictLookup d k2 := by
    intro d
    induction d with
    | nil => rfl
    | cons kv rest ih =>
      rw [List.map_cons, dictLookup_cons, dictLookup_cons]
      by_cases hkv : (kv.1 == k) = true
      · rw [if_pos hkv]
        have h1 : ((k, v).1 == k2) = false := by
          simp only [beq_eq_false_iff_ne, ne_eq]
          exact hne
        rw [h1, if_neg (by simp)]
        have h2 : (kv.1 == k2) = false := by
          rw [beq_iff_eq] at hkv
          simp only [beq_eq_false_iff_ne, ne_eq, hkv]
          exact hne
        rw [h2, if_neg (by simp)]
        exact ih
      · rw [if_neg hkv]
        by_cases hkv2 : (kv.1 == k2) = true
        · rw [if_pos hkv2, if_pos hkv2]
        · rw [if_neg hkv2, if_neg hkv2]
          exact ih
  intro d
  unfold dictSet
  by_cases hk : (dictLookup d k).isSome = true
  · rw [if_pos hk]
    exact hmap d
  · rw [if_neg hk]
    rw [dictLookup_append]
    cases hd : dictLookup d k2 with
    | some w => rfl
    | none =>
      rw [dictLookup_cons, dictLookup_nil]
      have h1 : ((k, v).1 == k2) = false := by
        simp only [beq_eq_false_iff_ne, ne_eq]
        exact hne
      rw [h1, if_neg (by simp)]

theorem getSlotsTable_dictSet_version (d : Doc) (v : DocVal)
    (h : hasKey d KEY_SLOTS = false) :
    getSlotsTable (dictSet d "version" v) = [] := by
  unfold getSlotsTable
  rw [dictLookup_dictSet_ne "version" KEY_SLOTS v (by decide) d]
  unfold hasKey at h
  cases hl : dictLookup d KEY_SLOTS with
  | none => rfl
  | some dv =>
    exfalso
    rw [hl] at h
    simp at h

theorem getFormsTable_dictSet_version (d : Doc) (v : DocVal)
    (h : hasKey d KEY_FORMS = false) :
    getFormsTable (dictSet d "version" v) = [] := by
  unfold getFormsTable
  rw [dictLookup_dictSet_ne "version" KEY_FORMS v (by decide) d]
  unfold hasKey at h
  cases hl : dictLookup d KEY_FORMS with
  | none => rfl
  | some dv =>
    exfalso
    rw [hl] at h
    simp at h

theorem dictSet_ne_nil {α : Type} (d : List (String × α)) (k : String) (v : α) :
    dictSet d k v ≠ [] := by
  unfold dictSet
  by_cases h : (dictLookup d k).isSome = true
  · rw [if_pos h]
    intro hc
    rw [List.map_eq_nil_iff] at hc
    subst hc
    rw [dictLookup_nil] at h
    simp at h
  · rw [if_neg h]
    simp

theorem dictUpdate_nil_ne_nil {α : Type} (l : List (String × α)) (hl : l ≠ []) :
    dictUpdate ([] : List (String × α)) l ≠ [] := by
  have hstep : ∀ (rest acc : List (String × α)), acc ≠ [] →
      List.foldl (fun acc kv => dictSet acc kv.1 kv.2) acc rest ≠ [] := by
    intro rest
    induction rest with
    | nil =>
      intro acc h
      exact h
    | cons kv2 r2 ih =>
      intro acc h
      rw [List.foldl_cons]
      exact ih _ (dictSet_ne_nil acc kv2.1 kv2.2)
  cases l with
  | nil => exact absurd rfl hl
  | cons kv rest =>
    unfold dictUpdate
    rw [List.foldl_cons]
    exact hstep rest _ (dictSet_ne_nil [] kv.1 kv.2)

theorem anyAlreadyMigrated_ok_false (fs : FS) :
    ∀ (ps : List FPath),
      (∀ p ∈ ps, ∃ d, readYamlFile fs p = Except.ok d
        ∧ (dictLookup d "version" == some (DocVal.vstr "3.0")) = false) →
      anyAlreadyMigrated fs ps = Except.ok false := by
  intro ps
  induction ps with
  | nil =>
    intro _
    rfl
  | cons p rest ih =>
    intro h
    obtain ⟨d, hr, hv⟩ := h p (by simp)
    rw [anyAlreadyMigrated, hr]
    dsimp only
    rw [ih (fun q hq => h q (by simp [hq]))]
    dsimp only
    rw [hv]
    rfl

theorem migrate_dir_error_run (fs0 : FS) (domainPath outPath : FPath)
    (e : MigErr) (fsR : FS) (created : Bool)
    (hGS : GoodSetup fs0 domainPath outPath)
    (hdd : fs0.isDir domainPath = true)
    (ham : anyAlreadyMigrated fs0
        ((fs0.domainFileNames domainPath).map (fun n => domainPath ++ [n]))
      = Except.ok false)
    (hteq : tryPhase fs0 domainPath
        (domainPath.dropLast ++ ["original_domain"]) outPath false
      = (Except.error (e, fsR), created)) :
    migrate_domain_format fs0 domainPath (some outPath)
      = ⟨fs0, Except.error e⟩ := by
  unfold GoodSetup at hGS
  obtain ⟨g1, g2, g3, g4, g5, g6, g7, g8, g9, g10, g11, g12, g13, g14, g15, g16⟩
    := hGS
  have hdpmem : domainPath ∈ fs0.dirs := (isDir_true_iff fs0 domainPath).mp hdd
  have hmfo0 : fs0.isFile domainPath = false := g2 domainPath hdpmem
  have hmfo : ¬(fs0.isFile domainPath = true) := by simp [hmfo0]
  rw [if_neg hmfo] at g3 g4 g11 g14 g15
  unfold migrate_domain_format
  dsimp only
  rw [if_neg hmfo]
  rw [hmfo0]
  have hblfile : fs0.isFile (domainPath.dropLast ++ ["original_domain"])
      = false := isFile_false_of_clean fs0 _ g3
  have hbldir : fs0.isDir (domainPath.dropLast ++ ["original_domain"])
      = false :=
    isDir_false_of_not_mem fs0 _ (not_mem_dirs_of_clean fs0.dirs _ g4)
  have hpe : fs0.pathExists (domainPath.dropLast ++ ["original_domain"])
      = false := by
    unfold FS.pathExists
    rw [hblfile, hbldir]
    rfl
  rw [if_neg (by simp [hpe])]
  have hch : fs0.hasChildren outPath = false :=
    hasChildren_false_of fs0 outPath g5 g6
  rw [if_neg (by simp [hch])]
  rw [if_neg (by simp)]
  rw [if_pos hdd]
  rw [ham]
  dsimp only
  rw [if_neg (by simp)]
  rw [hteq]
  dsimp only
  have h1 : ∀ pf ∈ fs0.files,
      (domainPath.dropLast ++ ["original_domain"]).isPrefixOf pf.1 = false
        ∧ outPath.isPrefixOf pf.1 = false :=
    fun pf hm => ⟨g3 pf hm, g5 pf hm⟩
  have hparent :
      fs0.isDir (domainPath.dropLast ++ ["original_domain"]).dropLast
        = true := by
    rw [List.dropLast_concat]
    exact (isDir_true_iff fs0 _).mpr g9
  exact tryPhase_dir_error fs0 domainPath _ outPath e fsR created
    h1 g4 g6 g15 g14 g2 g8 hparent g12 hdpmem hteq

theorem tryPhase_dir_entry (fs0 : FS) (dp bl op : FPath)
    (hpe : fs0.pathExists bl = false)
    (hparent : fs0.isDir bl.dropLast = true)
    (hq : ∀ q ∈ pathPrefixes op, q = op ∨ fs0.isDir q = true)
    (hdisj : ∀ d ∈ fs0.dirs, fs0.isFile d = false)
    (hopnil : op ≠ [])
    (hopfile : fs0.isFile op = false)
    (hblop : bl ≠ op) :
    ∃ (eds : List FPath) (created : Bool),
      (∀ d2 ∈ eds, d2 = bl ∨ d2 = op)
      ∧ FS.isDir ⟨fs0.files, fs0.dirs ++ eds⟩ bl = true
      ∧ FS.isDir ⟨fs0.files, fs0.dirs ++ eds⟩ op = true
      ∧ ∀ (r : MigErr × FS),
          migrate_domain_files ⟨fs0.files, fs0.dirs ++ eds⟩ dp bl op
            = Except.error r →
          tryPhase fs0 dp bl op false = (Except.error r, created) := by
  have hfb : fs0.isFile bl = false := (Bool.or_eq_false_iff.mp hpe).1
  have hdb : fs0.isDir bl = false := (Bool.or_eq_false_iff.mp hpe).2
  have hblnotmem : bl ∉ fs0.dirs := fun hmem => by
    rw [(isDir_true_iff fs0 bl).mpr hmem] at hdb
    cases hdb
  by_cases hopd : fs0.isDir op = true
  · refine ⟨[bl], false, ?_, ?_, ?_, ?_⟩
    · intro d2 hm
      simp at hm
      exact Or.inl hm
    · exact (isDir_true_iff _ _).mpr (List.mem_append.mpr (Or.inr (by simp)))
    · exact (isDir_true_iff _ _).mpr
        (List.mem_append.mpr (Or.inl ((isDir_true_iff fs0 op).mp hopd)))
    · intro r hm
      rw [tryPhase]
      rw [if_neg (show ¬(false = true) by simp)]
      rw [if_neg (show ¬((!fs0.isDir op) = true) by simp [hopd])]
      dsimp only
      rw [mkdirPlain_ok_of fs0 bl hpe hparent]
      dsimp only
      rw [hm]
  · have hopd0 : fs0.isDir op = false := by
      cases h2 : fs0.isDir op
      · rfl
      · exact absurd h2 hopd
    have hopnotmem : op ∉ fs0.dirs := fun hmem => by
      rw [(isDir_true_iff fs0 op).mpr hmem] at hopd0
      cases hopd0
    have hne2 : fs0.pathExists op = false := by
      unfold FS.pathExists
      rw [hopfile, hopd0]
      rfl
    refine ⟨[op, bl], true, ?_, ?_, ?_, ?_⟩
    · intro d2 hm
      simp at hm
      rcases hm with h | h
      · exact Or.inr h
      · exact Or.inl h
    · exact (isDir_true_iff _ _).mpr (List.mem_append.mpr (Or.inr (by simp)))
    · exact (isDir_true_iff _ _).mpr (List.mem_append.mpr (Or.inr (by simp)))
    · intro r hm
      rw [tryPhase]
      rw [if_neg (show ¬(false = true) by simp)]
      rw [if_pos (show (!fs0.isDir op) = true by simp [hopd0])]
      rw [mkdirParents_ok_of fs0 op hne2 hq hdisj hopnil]
      dsimp only
      have hpe1 : FS.pathExists ⟨fs0.files, fs0.dirs ++ [op]⟩ bl = false := by
        unfold FS.pathExists
        have hf1 : FS.isFile ⟨fs0.files, fs0.dirs ++ [op]⟩ bl = false := hfb
        have hd1 : FS.isDir ⟨fs0.files, fs0.dirs ++ [op]⟩ bl = false :=
          isDir_false_of_not_mem _ bl (by
            intro hmem
            rcases List.mem_append.mp hmem with h | h
            · exact hblnotmem h
            · simp at h
              exact hblop h)
        rw [hf1, hd1]
        rfl
      have hpar1 : FS.isDir ⟨fs0.files, fs0.dirs ++ [op]⟩ bl.dropLast = true :=
        (isDir_true_iff _ _).mpr
          (List.mem_append.mpr (Or.inl ((isDir_true_iff fs0 _).mp hparent)))
      rw [mkdirPlain_ok_of ⟨fs0.files, fs0.dirs ++ [op]⟩ bl hpe1 hpar1]
      dsimp only
      have hassoc : fs0.dirs ++ [op] ++ [bl] = fs0.dirs ++ [op, bl] := by
        rw [List.append_assoc]
        rfl
      rw [hassoc, hm]

theorem mdfLoop_all_missing (dp bl op : FPath) (fsB : FS)
    (hbo : bl.isPrefixOf op = false) (hob : op.isPrefixOf bl = false)
    (hclean : ∀ pf ∈ fsB.files,
      bl.isPrefixOf pf.1 = false ∧ op.isPrefixOf pf.1 = false)
    (hbldir : fsB.isDir bl = true) (hopdir : fsB.isDir op = true)
    (hbldp : bl ≠ dp) (hopdp : op ≠ dp) :
    ∀ (names : List String) (fs : FS) (ents : List String),
      ExtraOnly bl op fsB fs →
      (∀ n ∈ names,
        fsB.isDir (bl ++ [n]) = false
        ∧ fsB.isDir (op ++ [n]) = false
        ∧ ∃ d, readYamlFile fsB (dp ++ [n]) = Except.ok d
            ∧ hasKey d KEY_SLOTS = false ∧ hasKey d KEY_FORMS = false) →
      ∃ fsR, mdfLoop dp bl op fs names [] [] ents
          = Except.error (MigErr.rasa RasaKind.missingSlotsOrForms, fsR) := by
  intro names
  induction names with
  | nil =>
    intro fs ents hEx h
    exact ⟨fs, rfl⟩
  | cons n rest ih =>
    intro fs ents hEx h
    obtain ⟨hbn, hon, d, hrB, hds, hdf⟩ := h n (by simp)
    have hq1 : (dp ++ [n]).dropLast ≠ bl := by
      rw [List.dropLast_concat]
      exact fun hq => hbldp hq.symm
    have hq2 : (dp ++ [n]).dropLast ≠ op := by
      rw [List.dropLast_concat]
      exact fun hq => hopdp hq.symm
    have hstable := ExtraOnly_lookup_stable bl op fsB fs (dp ++ [n]) hEx
      ⟨hq1, hq2⟩
    have hr : readYamlFile fs (dp ++ [n]) = Except.ok d := by
      rw [readYamlFile_congr fs fsB (dp ++ [n]) hstable, hrB]
    have hdirs : fs.dirs = fsB.dirs := hEx.1
    have hwb : writeYaml fs (bl ++ [n]) d
        = Except.ok (fs.setFile (bl ++ [n]) ⟨some d, true⟩) := by
      unfold writeYaml
      have hd1 : fs.isDir (bl ++ [n]) = false := by
        unfold FS.isDir
        rw [hdirs]
        exact hbn
      have hd2 : fs.isDir bl = true := by
        unfold FS.isDir
        rw [hdirs]
        exact hbldir
      rw [if_neg (by simp [hd1]), if_neg (by simp [List.dropLast_concat, hd2])]
    have hcb : create_back_up fs (dp ++ [n]) (bl ++ [n])
        = Except.ok (d, fs.setFile (bl ++ [n]) ⟨some d, true⟩) := by
      unfold create_back_up
      rw [hr]
      dsimp only
      rw [hwb]
    have hEx1 : ExtraOnly bl op fsB (fs.setFile (bl ++ [n]) ⟨some d, true⟩) :=
      setFile_preserves_extra bl op fsB fs (bl ++ [n]) _ hEx
        (child_extra_cond bl op n hbo) hclean
    have hdirs1 : (fs.setFile (bl ++ [n]) ⟨some d, true⟩).dirs = fsB.dirs :=
      hEx1.1
    have hwo : writeYaml (fs.setFile (bl ++ [n]) ⟨some d, true⟩) (op ++ [n])
        (dictSet d "version" (DocVal.vstr TARGET_VERSION))
        = Except.ok ((fs.setFile (bl ++ [n]) ⟨some d, true⟩).setFile (op ++ [n])
            ⟨some (dictSet d "version" (DocVal.vstr TARGET_VERSION)), true⟩) := by
      unfold writeYaml
      have hd1 : (fs.setFile (bl ++ [n]) ⟨some d, true⟩).isDir (op ++ [n])
          = false := by
        unfold FS.isDir
        rw [hdirs1]
        exact hon
      have hd2 : (fs.setFile (bl ++ [n]) ⟨some d, true⟩).isDir op = true := by
        unfold FS.isDir
        rw [hdirs1]
        exact hopdir
      rw [if_neg (by simp [hd1]), if_neg (by simp [List.dropLast_concat, hd2])]
    have hEx2 : ExtraOnly bl op fsB
        ((fs.setFile (bl ++ [n]) ⟨some d, true⟩).setFile (op ++ [n])
          ⟨some (dictSet d "version" (DocVal.vstr TARGET_VERSION)), true⟩) :=
      setFile_preserves_extra bl op fsB _ (op ++ [n]) _ hEx1
        (child_extra_cond_out bl op n hob) hclean
    obtain ⟨fsR, hrec⟩ := ih _
      (ents ++ getEntities (dictSet d "version" (DocVal.vstr TARGET_VERSION)))
      hEx2 (fun m hm => h m (by simp [hm]))
    refine ⟨fsR, ?_⟩
    rw [mdfLoop, hcb]
    dsimp only
    rw [if_pos (show (!(hasKey d KEY_SLOTS) && !(hasKey d KEY_FORMS)) = true by
      rw [hds, hdf]
      rfl)]
    rw [hwo]
    dsimp only
    have hs : dictUpdate ([] : List (String × SlotProps))
        (getSlotsTable (dictSet d "version" (DocVal.vstr TARGET_VERSION)))
        = [] := by
      rw [getSlotsTable_dictSet_version d _ hds]
      rfl
    have hf : dictUpdate ([] : List (String × FormData))
        (getFormsTable (dictSet d "version" (DocVal.vstr TARGET_VERSION)))
        = [] := by
      rw [getFormsTable_dictSet_version d _ hdf]
      rfl
    rw [hs, hf]
    exact hrec

theorem mdfLoop_dup_backups (dp bl op : FPath) (fsB : FS)
    (hbo : bl.isPrefixOf op = false)
    (hclean : ∀ pf ∈ fsB.files,
      bl.isPrefixOf pf.1 = false ∧ op.isPrefixOf pf.1 = false)
    (hbldir : fsB.isDir bl = true)
    (hbldp : bl ≠ dp) (hopdp : op ≠ dp)
    (n1 n2 : String) (d1 d2 : Doc)
    (hb1 : fsB.isDir (bl ++ [n1]) = false)
    (hb2 : fsB.isDir (bl ++ [n2]) = false)
    (hr1 : readYamlFile fsB (dp ++ [n1]) = Except.ok d1)
    (hr2 : readYamlFile fsB (dp ++ [n2]) = Except.ok d2) :
    create_back_up fsB (dp ++ [n1]) (bl ++ [n1])
        = Except.ok (d1, fsB.setFile (bl ++ [n1]) ⟨some d1, true⟩)
      ∧ create_back_up (fsB.setFile (bl ++ [n1]) ⟨some d1, true⟩)
          (dp ++ [n2]) (bl ++ [n2])
        = Except.ok (d2, (fsB.setFile (bl ++ [n1]) ⟨some d1, true⟩).setFile
            (bl ++ [n2]) ⟨some d2, true⟩) := by
  have hEx1 : ExtraOnly bl op fsB (fsB.setFile (bl ++ [n1]) ⟨some d1, true⟩) :=
    setFile_preserves_extra bl op fsB fsB (bl ++ [n1]) _
      (ExtraOnly_refl bl op fsB) (child_extra_cond bl op n1 hbo) hclean
  have hdirs1 : (fsB.setFile (bl ++ [n1]) ⟨some d1, true⟩).dirs = fsB.dirs :=
    hEx1.1
  constructor
  · unfold create_back_up
    rw [hr1]
    dsimp only
    unfold writeYaml
    rw [if_neg (by simp [hb1]), if_neg (by simp [List.dropLast_concat, hbldir])]
  · have hq1 : (dp ++ [n2]).dropLast ≠ bl := by
      rw [List.dropLast_concat]
      exact fun hq => hbldp hq.symm
    have hq2 : (dp ++ [n2]).dropLast ≠ op := by
      rw [List.dropLast_concat]
      exact fun hq => hopdp hq.symm
    have hstable := ExtraOnly_lookup_stable bl op fsB
      (fsB.setFile (bl ++ [n1]) ⟨some d1, true⟩) (dp ++ [n2]) hEx1 ⟨hq1, hq2⟩
    have hr2x : readYamlFile (fsB.setFile (bl ++ [n1]) ⟨some d1, true⟩)
        (dp ++ [n2]) = Except.ok d2 := by
      rw [readYamlFile_congr _ fsB (dp ++ [n2]) hstable, hr2]
    unfold create_back_up
    rw [hr2x]
    dsimp only
    unfold writeYaml
    have hd1 : (fsB.setFile (bl ++ [n1]) ⟨some d1, true⟩).isDir (bl ++ [n2])
        = false := by
      unfold FS.isDir
      rw [hdirs1]
      exact hb2
    have hd2 : (fsB.setFile (bl ++ [n1]) ⟨some d1, true⟩).isDir bl = true := by
      unfold FS.isDir
      rw [hdirs1]
      exact hbldir
    rw [if_neg (by simp [hd1]), if_neg (by simp [List.dropLast_concat, hd2])]

theorem mdfLoop_dup_slots (dp bl op : FPath) (fsB : FS)
    (hbo : bl.isPrefixOf op = false)
    (hclean : ∀ pf ∈ fsB.files,
      bl.isPrefixOf pf.1 = false ∧ op.isPrefixOf pf.1 = false)
    (hbldir : fsB.isDir bl = true)
    (hbldp : bl ≠ dp) (hopdp : op ≠ dp)
    (n1 n2 : String) (rest : List String) (d1 d2 : Doc)
    (hb1 : fsB.isDir (bl ++ [n1]) = false)
    (hb2 : fsB.isDir (bl ++ [n2]) = false)
    (hr1 : readYamlFile fsB (dp ++ [n1]) = Except.ok d1)
    (hr2 : readYamlFile fsB (dp ++ [n2]) = Except.ok d2)
    (hk1 : hasKey d1 KEY_SLOTS = true)
    (ht1 : getSlotsTable d1 ≠ [])
    (hk2 : hasKey d2 KEY_SLOTS = true) :
    ∃ fsR, mdfLoop dp bl op fsB (n1 :: n2 :: rest) [] [] []
        = Except.error (MigErr.rasa RasaKind.duplicateSlots, fsR)
      ∧ fsR.isFile (bl ++ [n1]) = true ∧ fsR.isFile (bl ++ [n2]) = true := by
  obtain ⟨hcb1, hcb2⟩ := mdfLoop_dup_backups dp bl op fsB hbo hclean hbldir
    hbldp hopdp n1 n2 d1 d2 hb1 hb2 hr1 hr2
  have hempty : (dictUpdate ([] : List (String × SlotProps))
      (getSlotsTable d1)).isEmpty = false := by
    cases hsl : dictUpdate ([] : List (String × SlotProps)) (getSlotsTable d1) with
    | nil => exact absurd hsl (dictUpdate_nil_ne_nil _ ht1)
    | cons a l => rfl
  refine ⟨(fsB.setFile (bl ++ [n1]) ⟨some d1, true⟩).setFile (bl ++ [n2])
    ⟨some d2, true⟩, ?_, ?_, ?_⟩
  · rw [mdfLoop, hcb1]
    dsimp only
    rw [if_neg (by simp [hk1])]
    rw [if_neg (by simp)]
    rw [if_neg (by simp)]
    rw [mdfLoop, hcb2]
    dsimp only
    rw [if_neg (by simp [hk2])]
    rw [if_pos (show (hasKey d2 KEY_SLOTS
        && !(dictUpdate ([] : List (String × SlotProps))
          (getSlotsTable d1)).isEmpty) = true by rw [hk2, hempty]; rfl)]
  · exact setFile_isFile_mono _ _ _ _ (setFile_isFile_self fsB (bl ++ [n1]) _)
  · exact setFile_isFile_self _ (bl ++ [n2]) _

theorem mdfLoop_dup_forms (dp bl op : FPath) (fsB : FS)
    (hbo : bl.isPrefixOf op = false)
    (hclean : ∀ pf ∈ fsB.files,
      bl.isPrefixOf pf.1 = false ∧ op.isPrefixOf pf.1 = false)
    (hbldir : fsB.isDir bl = true)
    (hbldp : bl ≠ dp) (hopdp : op ≠ dp)
    (n1 n2 : String) (rest : List String) (d1 d2 : Doc)
    (hb1 : fsB.isDir (bl ++ [n1]) = false)
    (hb2 : fsB.isDir (bl ++ [n2]) = false)
    (hr1 : readYamlFile fsB (dp ++ [n1]) = Except.ok d1)
    (hr2 : readYamlFile fsB (dp ++ [n2]) = Except.ok d2)
    (hk1 : hasKey d1 KEY_FORMS = true)
    (ht1 : getFormsTable d1 ≠ [])
    (hs2 : hasKey d2 KEY_SLOTS = false)
    (hk2 : hasKey d2 KEY_FORMS = true) :
    ∃ fsR, mdfLoop dp bl op fsB (n1 :: n2 :: rest) [] [] []
        = Except.error (MigErr.rasa RasaKind.duplicateForms, fsR)
      ∧ fsR.isFile (bl ++ [n1]) = true ∧ fsR.isFile (bl ++ [n2]) = true := by
  obtain ⟨hcb1, hcb2⟩ := mdfLoop_dup_backups dp bl op fsB hbo hclean hbldir
    hbldp hopdp n1 n2 d1 d2 hb1 hb2 hr1 hr2
  have hempty : (dictUpdate ([] : List (String × FormData))
      (getFormsTable d1)).isEmpty = false := by
    cases hsl : dictUpdate ([] : List (String × FormData)) (getFormsTable d1) with
    | nil => exact absurd hsl (dictUpdate_nil_ne_nil _ ht1)
    | cons a l => rfl
  refine ⟨(fsB.setFile (bl ++ [n1]) ⟨some d1, true⟩).setFile (bl ++ [n2])
    ⟨some d2, true⟩, ?_, ?_, ?_⟩
  · rw [mdfLoop, hcb1]
    dsimp only
    rw [if_neg (by simp [hk1])]
    rw [if_neg (by simp)]
    rw [if_neg (by simp)]
    rw [mdfLoop, hcb2]
    dsimp only
    rw [if_neg (by simp [hk2])]
    rw [if_neg (by simp [hs2])]
    rw [if_pos (show (hasKey d2 KEY_FORMS
        && !(dictUpdate ([] : List (String × FormData))
          (getFormsTable d1)).isEmpty) = true by rw [hk2, hempty]; rfl)]
  · exact setFile_isFile_mono _ _ _ _ (setFile_isFile_self fsB (bl ++ [n1]) _)
  · exact setFile_isFile_self _ (bl ++ [n2]) _

/-- **C9** (amended): in the directory case, under the atomicity
preconditions (`GoodSetup`), an input with at least one recognized document,
all of whose recognized documents parse, are not marked as already migrated,
and are missing both required sections (none declares `slots` and none
declares `forms`), fails with the missing-sections precondition error, and
the run ends with the filesystem in exactly its pre-run state; the
single-file case performs no such check. -/
theorem missing_sections_rejected (fs0 : FS) (domainPath outPath : FPath)
    (hGS : GoodSetup fs0 domainPath outPath)
    (hdd : fs0.isDir domainPath = true)
    (hne : fs0.domainFileNames domainPath ≠ [])
    (hdocs : ∀ n ∈ fs0.domainFileNames domainPath,
      ∃ d, readYamlFile fs0 (domainPath ++ [n]) = Except.ok d
        ∧ hasKey d KEY_SLOTS = false ∧ hasKey d KEY_FORMS = false
        ∧ (dictLookup d "version" == some (DocVal.vstr "3.0")) = false) :
    migrate_domain_format fs0 domainPath (some outPath)
      = ⟨fs0, Except.error (MigErr.rasa RasaKind.missingSlotsOrForms)⟩ := by
  have hGS2 := hGS
  unfold GoodSetup at hGS2
  obtain ⟨g1, g2, g3, g4, g5, g6, g7, g8, g9, g10, g11, g12, g13, g14, g15, g16⟩
    := hGS2
  have hdpmem : domainPath ∈ fs0.dirs := (isDir_true_iff fs0 domainPath).mp hdd
  have hmfo0 : fs0.isFile domainPath = false := g2 domainPath hdpmem
  have hmfo : ¬(fs0.isFile domainPath = true) := by simp [hmfo0]
  rw [if_neg hmfo] at g3 g4 g11 g14 g15
  have hblfile : fs0.isFile (domainPath.dropLast ++ ["original_domain"])
      = false := isFile_false_of_clean fs0 _ g3
  have hbldirF : fs0.isDir (domainPath.dropLast ++ ["original_domain"])
      = false :=
    isDir_false_of_not_mem fs0 _ (not_mem_dirs_of_clean fs0.dirs _ g4)
  have hpe : fs0.pathExists (domainPath.dropLast ++ ["original_domain"])
      = false := by
    unfold FS.pathExists
    rw [hblfile, hbldirF]
    rfl
  have hparent :
      fs0.isDir (domainPath.dropLast ++ ["original_domain"]).dropLast
        = true := by
    rw [List.dropLast_concat]
    exact (isDir_true_iff fs0 _).mpr g9
  have hopfile : fs0.isFile outPath = false := isFile_false_of_clean fs0 _ g5
  have ham : anyAlreadyMigrated fs0
      ((fs0.domainFileNames domainPath).map (fun n => domainPath ++ [n]))
      = Except.ok false := by
    apply anyAlreadyMigrated_ok_false
    intro p hp
    rw [List.mem_map] at hp
    obtain ⟨n, hn, rfl⟩ := hp
    obtain ⟨d, hrd, _, _, hvd⟩ := hdocs n hn
    exact ⟨d, hrd, hvd⟩
  obtain ⟨eds, created, heds, hbl2, hop2, hrun⟩ :=
    tryPhase_dir_entry fs0 domainPath
      (domainPath.dropLast ++ ["original_domain"]) outPath
      hpe hparent g8 g2 g12 hopfile (fun he => g11 he.symm)
  have hbldp : domainPath.dropLast ++ ["original_domain"] ≠ domainPath := by
    intro he
    have hpre := g4 domainPath hdpmem
    rw [he, isPrefixOf_self] at hpre
    cases hpre
  have hnames : ∀ n ∈ fs0.domainFileNames domainPath,
      FS.isDir ⟨fs0.files, fs0.dirs ++ eds⟩
          ((domainPath.dropLast ++ ["original_domain"]) ++ [n]) = false
        ∧ FS.isDir ⟨fs0.files, fs0.dirs ++ eds⟩ (outPath ++ [n]) = false
        ∧ ∃ d, readYamlFile ⟨fs0.files, fs0.dirs ++ eds⟩ (domainPath ++ [n])
              = Except.ok d
            ∧ hasKey d KEY_SLOTS = false ∧ hasKey d KEY_FORMS = false := by
    intro n hn
    obtain ⟨d, hrd, hds, hdf, _⟩ := hdocs n hn
    refine ⟨?_, ?_, d, ?_, hds, hdf⟩
    · apply isDir_false_of_not_mem
      intro hmem
      rcases List.mem_append.mp hmem with hmem | hmem
      · have h2 := prefix_concat_self (domainPath.dropLast ++ ["original_domain"]) n
        have h3 := g4 _ hmem
        rw [h2] at h3
        cases h3
      · rcases heds _ hmem with he | he
        · exact concat_ne_self _ n he
        · exact concat_ne_of_no_pref _ outPath n g15 he
    · apply isDir_false_of_not_mem
      intro hmem
      rcases List.mem_append.mp hmem with hmem | hmem
      · exact g6 _ hmem ⟨prefix_concat_self outPath n, concat_ne_self outPath n⟩
      · rcases heds _ hmem with he | he
        · exact concat_ne_of_no_pref outPath _ n g14 he
        · exact concat_ne_self outPath n he
    · have hlk : FS.lookupFile ⟨fs0.files, fs0.dirs ++ eds⟩ (domainPath ++ [n])
          = fs0.lookupFile (domainPath ++ [n]) := rfl
      rw [readYamlFile_congr _ fs0 _ hlk, hrd]
  obtain ⟨fsR, hloop⟩ := mdfLoop_all_missing domainPath
    (domainPath.dropLast ++ ["original_domain"]) outPath
    ⟨fs0.files, fs0.dirs ++ eds⟩ g15 g14
    (fun pf hm => ⟨g3 pf hm, g5 pf hm⟩)
    hbl2 hop2 hbldp g10
    (fs0.domainFileNames domainPath) ⟨fs0.files, fs0.dirs ++ eds⟩ []
    (ExtraOnly_refl _ _ _) hnames
  have hne2 : (fs0.domainFileNames domainPath).isEmpty = false := by
    cases hl : fs0.domainFileNames domainPath with
    | nil => exact absurd hl hne
    | cons a l => rfl
  have hmdf : migrate_domain_files ⟨fs0.files, fs0.dirs ++ eds⟩ domainPath
      (domainPath.dropLast ++ ["original_domain"]) outPath
      = Except.error (MigErr.rasa RasaKind.missingSlotsOrForms, fsR) := by
    unfold migrate_domain_files
    dsimp only
    rw [domainFileNames_mk_files]
    rw [if_neg (by simp [hne2])]
    exact hloop
  have htp := hrun _ hmdf
  exact migrate_dir_error_run fs0 domainPath outPath _ fsR created
    hGS hdd ham htp

theorem missing_sections_rejected_witness :
    GoodSetup (fs9a ["e1"] ["e2"]) ["p", "dd"] ["p", "out"]
      ∧ migrate_domain_format (fs9a ["e1"] ["e2"]) ["p", "dd"]
          (some ["p", "out"])
        = ⟨fs9a ["e1"] ["e2"],
           Except.error (MigErr.rasa RasaKind.missingSlotsOrForms)⟩ :=
  ⟨by decide,
   missing_sections_rejected (fs9a ["e1"] ["e2"]) ["p", "dd"] ["p", "out"]
    (by decide) (by decide) (by decide)
    (by
      have hl : (fs9a ["e1"] ["e2"]).domainFileNames ["p", "dd"]
          = ["a.yml", "b.yml"] := by decide
      rw [hl]
      intro n hn
      rw [List.mem_cons, List.mem_cons] at hn
      rcases hn with rfl | hn
      · exact ⟨[(KEY_ENTITIES, DocVal.vents ["e1"])],
          by decide, by decide, by decide, by decide⟩
      rcases hn with rfl | hn
      · exact ⟨[(KEY_ENTITIES, DocVal.vents ["e2"])],
          by decide, by decide, by decide, by decide⟩
      · exact absurd hn (List.not_mem_nil n))⟩

/-- **C8** (amended): in a domain directory, under the atomicity
preconditions (`GoodSetup`), when the first recognized document declares a
nonempty `slots` (resp. `forms`) section and the second recognized document
also declares a `slots` (resp. `forms`) section, migration fails with the
duplicate-sections precondition error; the rejection is raised only after
both files have been backed up (the filesystem at the raise holds both
backups), not before any backup is created, and the rollback then removes
them again so the run ends with the filesystem in exactly its pre-run
state. -/
theorem duplicate_sections_rejected (fs0 : FS) (domainPath outPath : FPath)
    (hGS : GoodSetup fs0 domainPath outPath)
    (hdd : fs0.isDir domainPath = true)
    (n1 n2 : String) (rest : List String)
    (hnames : fs0.domainFileNames domainPath = n1 :: n2 :: rest)
    (hmig : ∀ n ∈ fs0.domainFileNames domainPath,
      ∃ d, readYamlFile fs0 (domainPath ++ [n]) = Except.ok d
        ∧ (dictLookup d "version" == some (DocVal.vstr "3.0")) = false)
    (d1 d2 : Doc)
    (hr1 : readYamlFile fs0 (domainPath ++ [n1]) = Except.ok d1)
    (hr2 : readYamlFile fs0 (domainPath ++ [n2]) = Except.ok d2) :
    (hasKey d1 KEY_SLOTS = true → getSlotsTable d1 ≠ [] →
      hasKey d2 KEY_SLOTS = true →
      migrate_domain_format fs0 domainPath (some outPath)
          = ⟨fs0, Except.error (MigErr.rasa RasaKind.duplicateSlots)⟩
        ∧ ∃ fsR created,
            tryPhase fs0 domainPath
                (domainPath.dropLast ++ ["original_domain"]) outPath false
              = (Except.error (MigErr.rasa RasaKind.duplicateSlots, fsR),
                 created)
            ∧ fsR.isFile ((domainPath.dropLast ++ ["original_domain"]) ++ [n1])
                = true
            ∧ fsR.isFile ((domainPath.dropLast ++ ["original_domain"]) ++ [n2])
                = true)
    ∧ (hasKey d1 KEY_FORMS = true → getFormsTable d1 ≠ [] →
      hasKey d2 KEY_SLOTS = false → hasKey d2 KEY_FORMS = true →
      migrate_domain_format fs0 domainPath (some outPath)
          = ⟨fs0, Except.error (MigErr.rasa RasaKind.duplicateForms)⟩
        ∧ ∃ fsR created,
            tryPhase fs0 domainPath
                (domainPath.dropLast ++ ["original_domain"]) outPath false
              = (Except.error (MigErr.rasa RasaKind.duplicateForms, fsR),
                 created)
            ∧ fsR.isFile ((domainPath.dropLast ++ ["original_domain"]) ++ [n1])
                = true
            ∧ fsR.isFile ((domainPath.dropLast ++ ["original_domain"]) ++ [n2])
                = true) := by
  have hGS2 := hGS
  unfold GoodSetup at hGS2
  obtain ⟨g1, g2, g3, g4, g5, g6, g7, g8, g9, g10, g11, g12, g13, g14, g15, g16⟩
    := hGS2
  have hdpmem : domainPath ∈ fs0.dirs := (isDir_true_iff fs0 domainPath).mp hdd
  have hmfo0 : fs0.isFile domainPath = false := g2 domainPath hdpmem
  have hmfo : ¬(fs0.isFile domainPath = true) := by simp [hmfo0]
  rw [if_neg hmfo] at g3 g4 g11 g14 g15
  have hblfile : fs0.isFile (domainPath.dropLast ++ ["original_domain"])
      = false := isFile_false_of_clean fs0 _ g3
  have hbldirF : fs0.isDir (domainPath.dropLast ++ ["original_domain"])
      = false :=
    isDir_false_of_not_mem fs0 _ (not_mem_dirs_of_clean fs0.dirs _ g4)
  have hpe : fs0.pathExists (domainPath.dropLast ++ ["original_domain"])
      = false := by
    unfold FS.pathExists
    rw [hblfile, hbldirF]
    rfl
  have hparent :
      fs0.isDir (domainPath.dropLast ++ ["original_domain"]).dropLast
        = true := by
    rw [List.dropLast_concat]
    exact (isDir_true_iff fs0 _).mpr g9
  have hopfile : fs0.isFile outPath = false := isFile_false_of_clean fs0 _ g5
  have ham : anyAlreadyMigrated fs0
      ((fs0.domainFileNames domainPath).map (fun n => domainPath ++ [n]))
      = Except.ok false := by
    apply anyAlreadyMigrated_ok_false
    intro p hp
    rw [List.mem_map] at hp
    obtain ⟨n, hn, rfl⟩ := hp
    obtain ⟨d, hrd, hvd⟩ := hmig n hn
    exact ⟨d, hrd, hvd⟩
  obtain ⟨eds, created, heds, hbl2, hop2, hrun⟩ :=
    tryPhase_dir_entry fs0 domainPath
      (domainPath.dropLast ++ ["original_domain"]) outPath
      hpe hparent g8 g2 g12 hopfile (fun he => g11 he.symm)
  have hbldp : domainPath.dropLast ++ ["original_domain"] ≠ domainPath := by
    intro he
    have hpre := g4 domainPath hdpmem
    rw [he, isPrefixOf_self] at hpre
    cases hpre
  have hbdir : ∀ (n : String),
      FS.isDir ⟨fs0.files, fs0.dirs ++ eds⟩
        ((domainPath.dropLast ++ ["original_domain"]) ++ [n]) = false := by
    intro n
    apply isDir_false_of_not_mem
    intro hmem
    rcases List.mem_append.mp hmem with hmem | hmem
    · have h2 := prefix_concat_self (domainPath.dropLast ++ ["original_domain"]) n
      have h3 := g4 _ hmem
      rw [h2] at h3
      cases h3
    · rcases heds _ hmem with he | he
      · exact concat_ne_self _ n he
      · exact concat_ne_of_no_pref _ outPath n g15 he
  have hr1x : readYamlFile ⟨fs0.files, fs0.dirs ++ eds⟩ (domainPath ++ [n1])
      = Except.ok d1 := by
    have hlk : FS.lookupFile ⟨fs0.files, fs0.dirs ++ eds⟩ (domainPath ++ [n1])
        = fs0.lookupFile (domainPath ++ [n1]) := rfl
    rw [readYamlFile_congr _ fs0 _ hlk, hr1]
  have hr2x : readYamlFile ⟨fs0.files, fs0.dirs ++ eds⟩ (domainPath ++ [n2])
      = Except.ok d2 := by
    have hlk : FS.lookupFile ⟨fs0.files, fs0.dirs ++ eds⟩ (domainPath ++ [n2])
        = fs0.lookupFile (domainPath ++ [n2]) := rfl
    rw [readYamlFile_congr _ fs0 _ hlk, hr2]
  have hclean2 : ∀ pf ∈ (FS.mk fs0.files (fs0.dirs ++ eds)).files,
      (domainPath.dropLast ++ ["original_domain"]).isPrefixOf pf.1 = false
        ∧ outPath.isPrefixOf pf.1 = false :=
    fun pf hm => ⟨g3 pf hm, g5 pf hm⟩
  constructor
  · intro hk1 ht1 hk2
    obtain ⟨fsR, hloop, hf1, hf2⟩ := mdfLoop_dup_slots domainPath
      (domainPath.dropLast ++ ["original_domain"]) outPath
      ⟨fs0.files, fs0.dirs ++ eds⟩ g15 hclean2 hbl2 hbldp g10
      n1 n2 rest d1 d2 (hbdir n1) (hbdir n2) hr1x hr2x hk1 ht1 hk2
    have hmdf : migrate_domain_files ⟨fs0.files, fs0.dirs ++ eds⟩ domainPath
        (domainPath.dropLast ++ ["original_domain"]) outPath
        = Except.error (MigErr.rasa RasaKind.duplicateSlots, fsR) := by
      unfold migrate_domain_files
      dsimp only
      rw [domainFileNames_mk_files, hnames]
      rw [if_neg (by simp)]
      exact hloop
    have htp := hrun _ hmdf
    exact ⟨migrate_dir_error_run fs0 domainPath outPath _ fsR created
        hGS hdd ham htp,
      fsR, created, htp, hf1, hf2⟩
  · intro hk1 ht1 hs2 hk2
    obtain ⟨fsR, hloop, hf1, hf2⟩ := mdfLoop_dup_forms domainPath
      (domainPath.dropLast ++ ["original_domain"]) outPath
      ⟨fs0.files, fs0.dirs ++ eds⟩ g15 hclean2 hbl2 hbldp g10
      n1 n2 rest d1 d2 (hbdir n1) (hbdir n2) hr1x hr2x hk1 ht1 hs2 hk2
    have hmdf : migrate_domain_files ⟨fs0.files, fs0.dirs ++ eds⟩ domainPath
        (domainPath.dropLast ++ ["original_domain"]) outPath
        = Except.error (MigErr.rasa RasaKind.duplicateForms, fsR) := by
      unfold migrate_domain_files
      dsimp only
      rw [domainFileNames_mk_files, hnames]
      rw [if_neg (by simp)]
      exact hloop
    have htp := hrun _ hmdf
    exact ⟨migrate_dir_error_run fs0 domainPath outPath _ fsR created
        hGS hdd ham htp,
      fsR, created, htp, hf1, hf2⟩

theorem duplicate_sections_rejected_witness :
    (GoodSetup fs8s ["p", "dd"] ["p", "out"]
      ∧ migrate_domain_format fs8s ["p", "dd"] (some ["p", "out"])
          = ⟨fs8s, Except.error (MigErr.rasa RasaKind.duplicateSlots)⟩)
    ∧ (GoodSetup (fs8a "f1" ⟨none, none, []⟩ [("f2", ⟨none, none, []⟩)])
        ["p", "dd"] ["p", "out"]
      ∧ migrate_domain_format
            (fs8a "f1" ⟨none, none, []⟩ [("f2", ⟨none, none, []⟩)])
            ["p", "dd"] (some ["p", "out"])
          = ⟨fs8a "f1" ⟨none, none, []⟩ [("f2", ⟨none, none, []⟩)],
             Except.error (MigErr.rasa RasaKind.duplicateForms)⟩) :=
  ⟨⟨by decide,
    ((duplicate_sections_rejected fs8s ["p", "dd"] ["p", "out"]
      (by decide) (by decide) "a.yml" "b.yml" [] (by decide)
      (by
        have hl : fs8s.domainFileNames ["p", "dd"] = ["a.yml", "b.yml"] := by
          decide
        rw [hl]
        intro n hn
        rw [List.mem_cons, List.mem_cons] at hn
        rcases hn with rfl | hn
        · exact ⟨[(KEY_SLOTS, DocVal.vslots [("s1", ⟨none, none, []⟩)])],
            by decide, by decide⟩
        rcases hn with rfl | hn
        · exact ⟨[(KEY_SLOTS, DocVal.vslots [("s2", ⟨none, none, []⟩)])],
            by decide, by decide⟩
        · exact absurd hn (List.not_mem_nil n))
      [(KEY_SLOTS, DocVal.vslots [("s1", ⟨none, none, []⟩)])]
      [(KEY_SLOTS, DocVal.vslots [("s2", ⟨none, none, []⟩)])]
      (by decide) (by decide)).1
      (by decide) (by decide) (by decide)).1⟩,
   ⟨by decide,
    ((duplicate_sections_rejected
      (fs8a "f1" ⟨none, none, []⟩ [("f2", ⟨none, none, []⟩)])
      ["p", "dd"] ["p", "out"]
      (by decide) (by decide) "a.yml" "b.yml" [] (by decide)
      (by
        have hl : (fs8a "f1" ⟨none, none, []⟩
            [("f2", ⟨none, none, []⟩)]).domainFileNames ["p", "dd"]
            = ["a.yml", "b.yml"] := by decide
        rw [hl]
        intro n hn
        rw [List.mem_cons, List.mem_cons] at hn
        rcases hn with rfl | hn
        · exact ⟨[(KEY_FORMS, DocVal.vforms [("f1", ⟨none, none, []⟩)])],
            by decide, by decide⟩
        rcases hn with rfl | hn
        · exact ⟨[(KEY_FORMS, DocVal.vforms [("f2", ⟨none, none, []⟩)])],
            by decide, by decide⟩
        · exact absurd hn (List.not_mem_nil n))
      [(KEY_FORMS, DocVal.vforms [("f1", ⟨none, none, []⟩)])]
      [(KEY_FORMS, DocVal.vforms [("f2", ⟨none, none, []⟩)])]
      (by decide) (by decide)).2
      (by decide) (by decide) (by decide) (by decide)).1⟩⟩
